import Mathlib

/-!
The producer facade, the dispatch loops and the configuration loader of siesta-producer:
a shallow embedding of `kafka_producer.go` and `config.go`, and the properties proved of it.

Conventions of the embedding.

* A Go value of type `interface{}` is a `GoValue`; a `[]byte` is an optional list of bytes
  (`none` is the nil slice); a `string` held in an `interface{}`, and the message of an
  error, is the sequence of its bytes (`GoString`), valid UTF-8 or not; an `error` is its
  message; `int`, `int32` and `time.Duration` are integers.  Topics and configuration
  options, which the code only compares and cuts at commas, are strings.
* A `*ProducerRecord` is modelled by the record it points to: `send` returns the record as
  it is after the call.  Channels are reference values: a record holds the index of its
  delivery channel in a heap of channels.
* A channel that a function sends on and may block on is its buffer, its capacity and its
  closed flag (`Chan`); a send on it completes, parks the sender, or panics, and a parked
  sender is released by the receiver's next receive.
* The dispatch loops are functions of the sequence of records their `range` loop receives.
  A channel they write to is the sequence of values sent on it (`Sink`): a full buffer
  delays a send, it does not change what is sent or in which order.
* Every call the facade makes to a collaborator, every write to the partition field and
  every action of a dispatch loop is appended to a trace, so that "is not invoked",
  "written once" and "closed only after" can be stated.
* What these two files use and do not declare is a parameter (the metadata cache, the
  partitioner, the option-file reader and the parsers of the standard library) or is
  modelled by the fields the code touches (the accumulator).
-/

namespace Producer

/-! ## Go values, errors, channels -/

/-- A byte slice; `none` is the nil slice. -/
abbrev Bytes := Option (List UInt8)

/-- A Go `string` whose bytes matter: the sequence of its bytes, which need not be valid
UTF-8. -/
abbrev GoString := List UInt8

/-- The Go string a literal of the source denotes: its UTF-8 bytes. -/
def goString (literal : String) : GoString :=
  literal.data.flatMap String.utf8EncodeChar

/-- A value of type `interface{}`: nil, a `[]byte`, a `string`, or a value of any other
dynamic type, given by the name of its type and its `%v` rendering. -/
inductive GoValue where
  | nil
  | bytes (array : Bytes)
  | string (str : GoString)
  | other (typeName : String) (text : GoString)
deriving DecidableEq, Repr

/-- A Go `error`, identified with its message. -/
structure GoError where
  msg : GoString
deriving DecidableEq, Repr

/-- The `%v` rendering of a value, as `fmt` prints it: `<nil>`, the decimal bytes of a
slice between brackets, the string itself. -/
def formatV : GoValue → GoString
  | .nil => goString "<nil>"
  | .bytes none => goString "[]"
  | .bytes (some l) => goString ("[" ++ " ".intercalate (l.map fun b => toString b.toNat) ++ "]")
  | .string s => s
  | .other _ text => text

/-- A channel `chan α`: the values buffered in it (oldest first), its capacity and whether
it has been closed. -/
structure Chan (α : Type) where
  buf : List α
  cap : Nat
  closed : Bool
deriving DecidableEq, Repr

/-- The channel `make(chan α, cap)`. -/
def Chan.make {α : Type} (cap : Nat) : Chan α :=
  { buf := [], cap := cap, closed := false }

/-- What `ch <- v` does to the sending goroutine. -/
inductive ChanSend (α : Type) where
  | done (ch : Chan α)
  | blocks
  | panics
deriving DecidableEq, Repr

/-- The statement `ch <- v`: a panic on a closed channel, completion when the buffer has
room, and otherwise the sender parks.  A parked sender is released by the next receive on
the channel (`SendResult.afterReceive`).  On a channel made with capacity 0 there is never
room: every send parks and the receiver takes the value from the parked sender, so that
the rendezvous is two steps here, also when the receiver was waiting first. -/
def Chan.send {α : Type} (ch : Chan α) (v : α) : ChanSend α :=
  if ch.closed then .panics
  else if ch.buf.length < ch.cap then .done { ch with buf := ch.buf ++ [v] }
  else .blocks

/-- The statement `close(ch)`; closing a closed channel panics (`none`). -/
def Chan.close {α : Type} (ch : Chan α) : Option (Chan α) :=
  if ch.closed then none else some { ch with closed := true }

/-! ## Records, metadata, serializers -/

/-- The struct `ProducerRecord`.  `metadataChan` is a reference into the heap of delivery
channels, `none` being the nil channel. -/
structure ProducerRecord where
  Topic : String
  Partition : Int
  Key : GoValue
  Value : GoValue
  encodedKey : Bytes
  encodedValue : Bytes
  metadataChan : Option Nat
deriving DecidableEq, Repr

/-- The struct `RecordMetadata`.  `Record` is a `*ProducerRecord`, `none` being nil. -/
structure RecordMetadata where
  Record : Option ProducerRecord
  Offset : Int
  Topic : String
  Partition : Int
  Error : Option GoError
deriving DecidableEq, Repr

/-- The value `new(RecordMetadata)`: every field at its zero value. -/
def RecordMetadata.new : RecordMetadata :=
  { Record := none, Offset := 0, Topic := "", Partition := 0, Error := none }

/-- The type `Serializer func(interface{}) ([]byte, error)`. -/
abbrev Serializer := GoValue → Except GoError Bytes

/-- The function `ByteSerializer`. -/
def ByteSerializer : Serializer := fun value =>
  match value with
  | .nil => .ok none
  | .bytes array => .ok array
  | v => .error ⟨goString "Can't serialize " ++ formatV v⟩

/-- The function `StringSerializer`; `[]byte(str)` is the bytes of the string. -/
def StringSerializer : Serializer := fun value =>
  match value with
  | .string str => .ok (some str)
  | v => .error ⟨goString "Can't serialize " ++ formatV v ++ goString " to string"⟩

/-! ## Collaborators declared outside the two source files -/

/-- Modelled from the spec: the metadata cache `*Metadata` is declared outside these
sources; only its method `Get(topic) → (partition list, error)` is used.  The cache is
stateful (it fetches and stores entries), so `Get` takes and returns the cache state. -/
structure Metadata (μ : Type) where
  state : μ
  Get : μ → String → Except GoError (List Int) × μ

/-- Modelled from the spec: the interface `Partitioner` is declared outside these sources;
only its method `Partition(record, partitions) → (partition id, error)` is used.  A
strategy may keep state of its own (rotation), which the method takes and returns; it
does not write to the record it is given. -/
structure Partitioner (π : Type) where
  state : π
  Partition : π → ProducerRecord → List Int → Except GoError Int × π

/-! ## Configuration -/

/-- The struct `ProducerConfig`.  Durations are nanosecond counts. -/
structure ProducerConfig (π : Type) where
  Partitioner : Partitioner π
  MetadataExpire : Int
  CompressionType : String
  BatchSize : Int
  Linger : Int
  Retries : Int
  RetryBackoff : Int
  BlockOnBufferFull : Bool
  ClientID : String
  MaxRequests : Int
  SendRoutines : Int
  ReceiveRoutines : Int
  ReadTimeout : Int
  WriteTimeout : Int
  RequiredAcks : Int
  AckTimeoutMs : Int
  BrokerList : List String

/-! ## The producer facade -/

/-- The struct `KafkaProducer`: the fields `Send`, `Close` and the dispatch loops read.
(`accumulatorConfig` and `connector` are only handed on to the accumulators and the
network client, which live outside these sources.) -/
structure KafkaProducer (μ π : Type) where
  config : ProducerConfig π
  keySerializer : Serializer
  valueSerializer : Serializer
  messagesChan : Chan ProducerRecord
  metadata : Metadata μ

/-- One observable action of `send`, in program order. -/
inductive Call where
  | keySerializer (value : GoValue)
  | valueSerializer (value : GoValue)
  | metadataGet (topic : String)
  | partition (record : ProducerRecord) (partitions : List Int)
  | setPartition (partition : Int)
  | deliver (chan : Nat) (metadata : RecordMetadata)
  | enqueue (record : ProducerRecord)
deriving DecidableEq, Repr

/-- Where a call of `Send` stands: it has returned, it is parked on the send to the
delivery channel, it is parked on the send to `messagesChan`, or it has panicked. -/
inductive Status where
  | returned
  | blockedOnDelivery
  | blockedOnEnqueue
  | panicked (msg : String)
deriving DecidableEq, Repr

/-- The world after (or during) a call of `send`. -/
structure SendResult (μ π : Type) where
  status : Status
  kp : KafkaProducer μ π
  heap : List (Chan RecordMetadata)
  record : ProducerRecord
  trace : List Call

/-- The two statements `metadataChan <- metadata; return` that end each failure path. -/
def deliver {μ π : Type} (kp : KafkaProducer μ π) (heap : List (Chan RecordMetadata))
    (record : ProducerRecord) (trace : List Call) (metadataChan : Option Nat)
    (metadata : RecordMetadata) : SendResult μ π :=
  match metadataChan with
  | none => { status := .blockedOnDelivery, kp := kp, heap := heap, record := record, trace := trace }
  | some ref =>
    match heap[ref]? with
    | none => { status := .blockedOnDelivery, kp := kp, heap := heap, record := record, trace := trace }
    | some ch =>
      match ch.send metadata with
      | .done ch1 =>
        { status := .returned, kp := kp, heap := heap.set ref ch1, record := record,
          trace := trace ++ [.deliver ref metadata] }
      | .blocks =>
        { status := .blockedOnDelivery, kp := kp, heap := heap, record := record, trace := trace }
      | .panics =>
        { status := .panicked "send on closed channel", kp := kp, heap := heap, record := record,
          trace := trace }

/-- The last statement of `send`, `kp.messagesChan <- record`. -/
def enqueue {μ π : Type} (kp : KafkaProducer μ π) (heap : List (Chan RecordMetadata))
    (record : ProducerRecord) (trace : List Call) : SendResult μ π :=
  match kp.messagesChan.send record with
  | .done ch =>
    { status := .returned, kp := { kp with messagesChan := ch }, heap := heap, record := record,
      trace := trace ++ [.enqueue record] }
  | .blocks =>
    { status := .blockedOnEnqueue, kp := kp, heap := heap, record := record, trace := trace }
  | .panics =>
    { status := .panicked "send on closed channel", kp := kp, heap := heap, record := record,
      trace := trace }

/-- The method `KafkaProducer.send`. -/
def send {μ π : Type} (kp : KafkaProducer μ π) (heap : List (Chan RecordMetadata))
    (record : ProducerRecord) : SendResult μ π :=
  let metadataChan := record.metadataChan
  let metadata := RecordMetadata.new
  match kp.keySerializer record.Key with
  | .error err =>
    deliver kp heap record [.keySerializer record.Key] metadataChan { metadata with Error := some err }
  | .ok serializedKey =>
    match kp.valueSerializer record.Value with
    | .error err =>
      deliver kp heap record [.keySerializer record.Key, .valueSerializer record.Value]
        metadataChan { metadata with Error := some err }
    | .ok serializedValue =>
      let record1 := { record with encodedKey := serializedKey, encodedValue := serializedValue }
      let got := kp.metadata.Get kp.metadata.state record1.Topic
      let kp1 := { kp with metadata := { kp.metadata with state := got.2 } }
      let trace1 := [Call.keySerializer record.Key, .valueSerializer record.Value,
        .metadataGet record1.Topic]
      match got.1 with
      | .error err => deliver kp1 heap record1 trace1 metadataChan { metadata with Error := some err }
      | .ok partitions =>
        let chosen := kp1.config.Partitioner.Partition kp1.config.Partitioner.state record1 partitions
        let kp2 := { kp1 with config := { kp1.config with
          Partitioner := { kp1.config.Partitioner with state := chosen.2 } } }
        let trace2 := trace1 ++ [.partition record1 partitions]
        match chosen.1 with
        | .error err => deliver kp2 heap record1 trace2 metadataChan { metadata with Error := some err }
        | .ok partition =>
          let record2 := { record1 with Partition := partition }
          enqueue kp2 heap record2 (trace2 ++ [.setPartition partition])

/-- The method `KafkaProducer.Send`: a fresh delivery channel of capacity one is stored
in the record, `send` runs, and the channel is what a returning call hands back. -/
def Send {μ π : Type} (kp : KafkaProducer μ π) (heap : List (Chan RecordMetadata))
    (record : ProducerRecord) : SendResult μ π :=
  send kp (heap ++ [Chan.make 1]) { record with metadataChan := some heap.length }

/-- What the record's delivery channel holds. -/
def SendResult.delivered {μ π : Type} (r : SendResult μ π) : List RecordMetadata :=
  match r.record.metadataChan with
  | none => []
  | some ref => match r.heap[ref]? with
    | none => []
    | some ch => ch.buf

/-- The method `KafkaProducer.Close`: `close(kp.messagesChan)`; `none` is the panic of
closing a closed channel. -/
def Close {μ π : Type} (kp : KafkaProducer μ π) : Option (KafkaProducer μ π) :=
  match kp.messagesChan.close with
  | none => none
  | some ch => some { kp with messagesChan := ch }

/-- The part of `NewKafkaProducer` that builds the producer value: the inbound queue is
`make(chan *ProducerRecord, config.BatchSize)`, which panics (`none`) on a negative size
and on a size above `chanLimit`, the longest channel of record pointers the platform
allocates.  The metadata cache `NewMetadata(connector, config.MetadataExpire)` is passed
in. -/
def NewKafkaProducer {μ π : Type} (chanLimit : Nat) (config : ProducerConfig π)
    (keySerializer : Serializer) (valueSerializer : Serializer) (metadata : Metadata μ) :
    Option (KafkaProducer μ π) :=
  if config.BatchSize < 0 ∨ (chanLimit : Int) < config.BatchSize then none
  else some
    { config := config
      messagesChan := Chan.make config.BatchSize.toNat
      keySerializer := keySerializer
      valueSerializer := valueSerializer
      metadata := metadata }

/-- The metadata `send` delivers on a failure path: `new(RecordMetadata)` with `Error` set. -/
def errorMetadata (err : GoError) : RecordMetadata :=
  { RecordMetadata.new with Error := some err }

/-- The heap once `Send` has delivered `metadata` on its fresh channel. -/
def heapWith (heap : List (Chan RecordMetadata)) (metadata : RecordMetadata) :
    List (Chan RecordMetadata) :=
  heap ++ [{ buf := [metadata], cap := 1, closed := false }]

/-- The record as `send` has it once both serializers have succeeded. -/
def encoded (record : ProducerRecord) (heap : List (Chan RecordMetadata)) (k v : Bytes) :
    ProducerRecord :=
  { record with encodedKey := k, encodedValue := v, metadataChan := some heap.length }

/-- The producer once `Get` has run. -/
def afterGet {μ π : Type} (kp : KafkaProducer μ π) (topic : String) : KafkaProducer μ π :=
  { kp with metadata := { kp.metadata with state := (kp.metadata.Get kp.metadata.state topic).2 } }

/-- The producer once `Get` and then `Partition` have run. -/
def afterPartition {μ π : Type} (kp : KafkaProducer μ π) (record : ProducerRecord)
    (partitions : List Int) : KafkaProducer μ π :=
  { afterGet kp record.Topic with config := { kp.config with Partitioner :=
      { kp.config.Partitioner with state :=
          (kp.config.Partitioner.Partition kp.config.Partitioner.state record partitions).2 } } }

/-- Equality of results is decidable. -/
instance instDecidableEqExcept {ε α : Type} [DecidableEq ε] [DecidableEq α] :
    DecidableEq (Except ε α) := fun a b =>
  match a, b with
  | .ok x, .ok y => if h : x = y then isTrue (by rw [h]) else isFalse (fun e => h (by cases e; rfl))
  | .error x, .error y =>
    if h : x = y then isTrue (by rw [h]) else isFalse (fun e => h (by cases e; rfl))
  | .ok _, .error _ => isFalse (fun e => by cases e)
  | .error _, .ok _ => isFalse (fun e => by cases e)

/-- The function `NewProducerConfig`, given the value of `NewHashPartitioner()`; the fields
it does not name have their zero values. -/
def NewProducerConfig {π : Type} (hashPartitioner : Partitioner π) : ProducerConfig π :=
  { Partitioner := hashPartitioner
    MetadataExpire := 60 * 1000000000
    CompressionType := ""
    BatchSize := 1000
    Linger := 1 * 1000000000
    Retries := 0
    RetryBackoff := 0
    BlockOnBufferFull := false
    ClientID := "siesta"
    MaxRequests := 10
    SendRoutines := 10
    ReceiveRoutines := 10
    ReadTimeout := 5 * 1000000000
    WriteTimeout := 5 * 1000000000
    RequiredAcks := 1
    AckTimeoutMs := 1000
    BrokerList := [] }

/-- A metadata cache for the examples: topic "orders" has partitions 0, 1, 2, topic
"empty" has none, and any other topic is unknown. -/
def demoMetadata : Metadata Unit :=
  { state := ()
    Get := fun s topic =>
      if topic = "orders" then (.ok [0, 1, 2], s)
      else if topic = "empty" then (.ok [], s)
      else (.error ⟨goString "unknown topic"⟩, s) }

/-- A partitioner for the examples: the first partition of the list, and an error on an
empty list. -/
def demoPartitioner : Partitioner Unit :=
  { state := ()
    Partition := fun s _ partitions =>
      match partitions with
      | [] => (.error ⟨goString "no partitions"⟩, s)
      | p :: _ => (.ok p, s) }

/-- A producer for the examples: string keys, byte values, batch size one, the given
inbound queue and block-on-full flag. -/
def demoProducer (queue : Chan ProducerRecord) (blockOnBufferFull : Bool) :
    KafkaProducer Unit Unit :=
  { config := { NewProducerConfig demoPartitioner with
      BatchSize := 1, BlockOnBufferFull := blockOnBufferFull }
    keySerializer := StringSerializer
    valueSerializer := ByteSerializer
    messagesChan := queue
    metadata := demoMetadata }

/-- A record as a caller builds it, with 7 in its partition field. -/
def demoRecord (topic : String) (key value : GoValue) : ProducerRecord :=
  { Topic := topic, Partition := 7, Key := key, Value := value, encodedKey := none,
    encodedValue := none, metadataChan := none }

/-- The example producer after `Close`. -/
def demoClosed : KafkaProducer Unit Unit :=
  demoProducer { buf := [], cap := 1, closed := true } false

/-- A Go map, as the list of its entries in the order the keys were first assigned. -/
abbrev GoMap (κ ν : Type) := List (κ × ν)

/-- The lookup `m[k]`; `none` stands for the nil a missing key reads as. -/
def mapGet {κ ν : Type} [DecidableEq κ] : GoMap κ ν → κ → Option ν
  | [], _ => none
  | (k1, v) :: m, k => if k1 = k then some v else mapGet m k

/-- The assignment `m[k] = v`. -/
def mapSet {κ ν : Type} [DecidableEq κ] : GoMap κ ν → κ → ν → GoMap κ ν
  | [], k, v => [(k, v)]
  | (k1, v1) :: m, k, v => if k1 = k then (k, v) :: m else (k1, v1) :: mapSet m k v

/-- An operation on the object the entry `m[k]` refers to (map values are references). -/
def mapModify {κ ν : Type} [DecidableEq κ] : GoMap κ ν → κ → (ν → ν) → GoMap κ ν
  | [], _, _ => []
  | (k1, v) :: m, k, f =>
    if k1 = k then (k1, f v) :: mapModify m k f else (k1, v) :: mapModify m k f

/-- The keys of a map. -/
def mapKeys {κ ν : Type} (m : GoMap κ ν) : List κ :=
  m.map Prod.fst

/-- A channel as its only writer sees it: the values sent on it so far, in order, and
whether it has been closed.  (How many of them the reader has already taken is the
reader's business; a full buffer delays a send and does not change what is sent.) -/
structure Sink (α : Type) where
  sent : List α
  closed : Bool
deriving DecidableEq, Repr

/-- A channel just made. -/
def Sink.make {α : Type} : Sink α :=
  { sent := [], closed := false }

/-- The statement `ch <- v`. -/
def Sink.push {α : Type} (ch : Sink α) (v : α) : Sink α :=
  { ch with sent := ch.sent ++ [v] }

/-- The statement `close(ch)`. -/
def Sink.close {α : Type} (ch : Sink α) : Sink α :=
  { ch with closed := true }

/-- Modelled from the spec: the struct `RecordAccumulator` is declared outside these
sources; the dispatch loop touches two of its fields, the record channel `input` and the
signal channel `closeChan`. -/
structure RecordAccumulator where
  input : Sink ProducerRecord
  closeChan : Sink Bool
deriving DecidableEq, Repr

/-- Modelled from the spec: `NewRecordAccumulator(config)` is declared outside these
sources; it returns a new accumulator, both of whose channels are open and empty. -/
def NewRecordAccumulator : RecordAccumulator :=
  { input := Sink.make, closeChan := Sink.make }

/-- One action of a dispatch loop on the tier below it: a queue (or accumulator) is
created for a key, a record is sent to the one registered for a key, the one registered
for a key is closed. -/
inductive DispatchEvent (κ : Type) where
  | create (key : κ)
  | forward (key : κ) (message : ProducerRecord)
  | close (key : κ)
deriving DecidableEq, Repr

/-- The record a `forward` event carries, with its key. -/
def DispatchEvent.forwarded {κ : Type} : DispatchEvent κ → Option (κ × ProducerRecord)
  | .forward k m => some (k, m)
  | _ => none

/-- The state of a dispatch loop: its local map `accumulators`, what it has done so far,
and whether it has run to its end. -/
structure Dispatch (κ ν : Type) where
  accumulators : GoMap κ ν
  trace : List (DispatchEvent κ)
  exited : Bool

/-- A dispatch loop about to start: `accumulators := make(map ...)`. -/
def Dispatch.start {κ ν : Type} : Dispatch κ ν :=
  { accumulators := [], trace := [], exited := false }

/-- One iteration of the `range` loop of `messageDispatchLoop`: the queue of the record's
topic is looked up; when there is none, one is made, registered and handed to a new
`topicDispatchLoop` goroutine (the `create` event); the record is sent on the queue. -/
def messageDispatchStep (st : Dispatch String (Sink ProducerRecord)) (message : ProducerRecord) :
    Dispatch String (Sink ProducerRecord) :=
  let st1 := match mapGet st.accumulators message.Topic with
    | some _ => st
    | none =>
      { st with
        accumulators := mapSet st.accumulators message.Topic Sink.make
        trace := st.trace ++ [DispatchEvent.create message.Topic] }
  { st1 with
    accumulators := mapModify st1.accumulators message.Topic fun accumulator =>
      accumulator.push message
    trace := st1.trace ++ [DispatchEvent.forward message.Topic message] }

/-- The closing loop of `messageDispatchLoop`: `close(accumulator)` for every entry, in the
order `order` in which the `range` over the map yields the keys. -/
def messageDispatchClose (order : List String → List String)
    (st : Dispatch String (Sink ProducerRecord)) : Dispatch String (Sink ProducerRecord) :=
  (order (mapKeys st.accumulators)).foldl
    (fun s topic =>
      { s with
        accumulators := mapModify s.accumulators topic Sink.close
        trace := s.trace ++ [DispatchEvent.close topic] })
    st

/-- The method `messageDispatchLoop`, run on the records `received` from `messagesChan`
so far, in order.  When the channel has been closed behind them the `range` loop ends and
every per-topic queue is closed; otherwise the loop is waiting for the next record. -/
def messageDispatchLoop (order : List String → List String) (received : List ProducerRecord)
    (closed : Bool) : Dispatch String (Sink ProducerRecord) :=
  let st := received.foldl messageDispatchStep Dispatch.start
  if closed then { messageDispatchClose order st with exited := true } else st

/-- One iteration of the `range` loop of `topicDispatchLoop`: the accumulator of the
record's partition is looked up; when there is none, `NewRecordAccumulator` makes one and
it is registered (the `create` event); the record is sent on its `input`. -/
def topicDispatchStep (st : Dispatch Int RecordAccumulator) (message : ProducerRecord) :
    Dispatch Int RecordAccumulator :=
  let st1 := match mapGet st.accumulators message.Partition with
    | some _ => st
    | none =>
      { st with
        accumulators := mapSet st.accumulators message.Partition NewRecordAccumulator
        trace := st.trace ++ [DispatchEvent.create message.Partition] }
  { st1 with
    accumulators := mapModify st1.accumulators message.Partition fun accumulator =>
      { accumulator with input := accumulator.input.push message }
    trace := st1.trace ++ [DispatchEvent.forward message.Partition message] }

/-- The closing loop of `topicDispatchLoop`: `close(accumulator.closeChan)` for every
entry, in the order `order` in which the `range` over the map yields the keys. -/
def topicDispatchClose (order : List Int → List Int) (st : Dispatch Int RecordAccumulator) :
    Dispatch Int RecordAccumulator :=
  (order (mapKeys st.accumulators)).foldl
    (fun s partition =>
      { s with
        accumulators := mapModify s.accumulators partition fun accumulator =>
          { accumulator with closeChan := accumulator.closeChan.close }
        trace := s.trace ++ [DispatchEvent.close partition] })
    st

/-- The method `topicDispatchLoop`, run on the records `received` from its per-topic
queue so far; `closed` says whether that queue has been closed behind them. -/
def topicDispatchLoop (order : List Int → List Int) (received : List ProducerRecord)
    (closed : Bool) : Dispatch Int RecordAccumulator :=
  let st := received.foldl topicDispatchStep Dispatch.start
  if closed then { topicDispatchClose order st with exited := true } else st

/-- The accumulator the two tiers hold for a topic and partition, if any: the per-topic
loop runs on what the top-level loop has sent to its queue. -/
def accumulatorOf (order1 : List String → List String) (order2 : List Int → List Int)
    (received : List ProducerRecord) (closed : Bool) (topic : String) (partition : Int) :
    Option RecordAccumulator :=
  match mapGet (messageDispatchLoop order1 received closed).accumulators topic with
  | none => none
  | some queue => mapGet (topicDispatchLoop order2 queue.sent queue.closed).accumulators partition

/-- The common shape of the two `range` loops, used to reason about both at once. -/
def routeStep {κ ν : Type} [DecidableEq κ] (key : ProducerRecord → κ) (make : ν)
    (push : ν → ProducerRecord → ν) (st : Dispatch κ ν) (message : ProducerRecord) :
    Dispatch κ ν :=
  let st1 := match mapGet st.accumulators (key message) with
    | some _ => st
    | none =>
      { st with
        accumulators := mapSet st.accumulators (key message) make
        trace := st.trace ++ [DispatchEvent.create (key message)] }
  { st1 with
    accumulators := mapModify st1.accumulators (key message) fun a => push a message
    trace := st1.trace ++ [DispatchEvent.forward (key message) message] }

/-- The common shape of the two closing loops. -/
def routeClose {κ ν : Type} [DecidableEq κ] (shut : ν → ν) (order : List κ → List κ)
    (st : Dispatch κ ν) : Dispatch κ ν :=
  (order (mapKeys st.accumulators)).foldl
    (fun s k =>
      { s with
        accumulators := mapModify s.accumulators k shut
        trace := s.trace ++ [DispatchEvent.close k] })
    st

/-! ## The configuration loader -/

/-- The pieces `strings.Split(s, ",")` cuts a string into: one more than it has commas. -/
def splitComma : List Char → List (List Char)
  | [] => [[]]
  | c :: cs =>
    if c = ',' then [] :: splitComma cs
    else match splitComma cs with
      | [] => [[c]]
      | piece :: pieces => (c :: piece) :: pieces

/-- The call `strings.Split(what, ",")`. -/
def stringsSplit (what : String) : List String :=
  (splitComma what.data).map String.mk

/-- The lookup `c[name]` in the option map read from the file; a missing option reads as
the empty string. -/
def optionOf (c : GoMap String String) (name : String) : String :=
  (mapGet c name).getD ""

/-- The conversion `int32(value)`. -/
def toInt32 (value : Int) : Int :=
  (value + 2147483648) % 4294967296 - 2147483648

/-- The function `setStringConfig`; the result is the value of `*where` after the call. -/
def setStringConfig (where_ : String) (what : String) : String :=
  if what ≠ "" then what else where_

/-- The function `setBoolConfig`; the result is the value of `*where` after the call. -/
def setBoolConfig (where_ : Bool) (what : String) : Bool :=
  if what ≠ "" then decide (what = "true") else where_

/-- The function `setDurationConfig`, given `time.ParseDuration`: the error it returns, or
else the value of `*where` after the call. -/
def setDurationConfig (ParseDuration : String → Except GoError Int) (where_ : Int)
    (what : String) : Except GoError Int :=
  if what ≠ "" then
    match ParseDuration what with
    | .ok value => .ok value
    | .error err => .error err
  else .ok where_

/-- The function `setIntConfig`, given `strconv.Atoi`: the error it returns, or else the
value of `*where` after the call. -/
def setIntConfig (Atoi : String → Except GoError Int) (where_ : Int) (what : String) :
    Except GoError Int :=
  if what ≠ "" then
    match Atoi what with
    | .ok value => .ok value
    | .error err => .error err
  else .ok where_

/-- The function `setInt32Config`, given `strconv.Atoi`. -/
def setInt32Config (Atoi : String → Except GoError Int) (where_ : Int) (what : String) :
    Except GoError Int :=
  if what ≠ "" then
    match Atoi what with
    | .ok value => .ok (toInt32 value)
    | .error err => .error err
  else .ok where_

/-- The function `setStringsConfig`; the result is the value of `*where` after the call. -/
def setStringsConfig (_where : List String) (what : String) : List String :=
  stringsSplit what

/-- The function `ProducerConfigFromFile`, given what it calls outside these sources:
`cfg.LoadNewMap`, `time.ParseDuration`, `strconv.Atoi` and (through `NewProducerConfig`)
`NewHashPartitioner()`. -/
def ProducerConfigFromFile {π : Type} (LoadNewMap : String → Except GoError (GoMap String String))
    (ParseDuration : String → Except GoError Int) (Atoi : String → Except GoError Int)
    (hashPartitioner : Partitioner π) (filename : String) : Except GoError (ProducerConfig π) :=
  match LoadNewMap filename with
  | .error err => .error err
  | .ok c =>
  let producerConfig := NewProducerConfig hashPartitioner
  match setDurationConfig ParseDuration producerConfig.MetadataExpire (optionOf c "metadata.max.age") with
  | .error err => .error err
  | .ok metadataExpire =>
  match setIntConfig Atoi producerConfig.BatchSize (optionOf c "batch.size") with
  | .error err => .error err
  | .ok batchSize =>
  match setIntConfig Atoi producerConfig.RequiredAcks (optionOf c "acks") with
  | .error err => .error err
  | .ok requiredAcks =>
  match setInt32Config Atoi producerConfig.AckTimeoutMs (optionOf c "timeout.ms") with
  | .error err => .error err
  | .ok ackTimeoutMs =>
  match setDurationConfig ParseDuration producerConfig.Linger (optionOf c "linger") with
  | .error err => .error err
  | .ok linger =>
  let clientID := setStringConfig producerConfig.ClientID (optionOf c "client.id")
  match setIntConfig Atoi producerConfig.SendRoutines (optionOf c "send.routines") with
  | .error err => .error err
  | .ok sendRoutines =>
  match setIntConfig Atoi producerConfig.ReceiveRoutines (optionOf c "receive.routines") with
  | .error err => .error err
  | .ok receiveRoutines =>
  let blockOnBufferFull :=
    setBoolConfig producerConfig.BlockOnBufferFull (optionOf c "block.on.buffer.full")
  match setIntConfig Atoi producerConfig.Retries (optionOf c "retries") with
  | .error err => .error err
  | .ok retries =>
  match setDurationConfig ParseDuration producerConfig.RetryBackoff (optionOf c "retry.backoff") with
  | .error err => .error err
  | .ok retryBackoff =>
  let compressionType :=
    setStringConfig producerConfig.CompressionType (optionOf c "compression.type")
  match setIntConfig Atoi producerConfig.MaxRequests (optionOf c "max.requests") with
  | .error err => .error err
  | .ok maxRequests =>
  let brokerList := setStringsConfig producerConfig.BrokerList (optionOf c "bootstrap.servers")
  let brokerList1 :=
    if brokerList.length = 0 then
      setStringsConfig brokerList (optionOf c "metadata.broker.list")
    else brokerList
  .ok { producerConfig with
    MetadataExpire := metadataExpire
    BatchSize := batchSize
    RequiredAcks := requiredAcks
    AckTimeoutMs := ackTimeoutMs
    Linger := linger
    ClientID := clientID
    SendRoutines := sendRoutines
    ReceiveRoutines := receiveRoutines
    BlockOnBufferFull := blockOnBufferFull
    Retries := retries
    RetryBackoff := retryBackoff
    CompressionType := compressionType
    MaxRequests := maxRequests
    BrokerList := brokerList1 }

/-- The broker list of a loaded configuration, when loading succeeds. -/
def brokerListOf {π : Type} (loaded : Except GoError (ProducerConfig π)) : Option (List String) :=
  match loaded with
  | .ok config => some config.BrokerList
  | .error _ => none

/-- Four records, of two topics and three partitions, in the order the inbound queue
yields them. -/
def demoReceived : List ProducerRecord :=
  [ { demoRecord "orders" (.string (goString "a")) .nil with Partition := 1 },
    { demoRecord "clicks" (.string (goString "b")) .nil with Partition := 0 },
    { demoRecord "orders" (.string (goString "c")) .nil with Partition := 2 },
    { demoRecord "orders" (.string (goString "d")) .nil with Partition := 1 } ]

/-! ## Facts about the facade -/

theorem deliver_fresh {μ π : Type} (kp : KafkaProducer μ π) (heap : List (Chan RecordMetadata))
    (record : ProducerRecord) (trace : List Call) (metadata : RecordMetadata) :
    deliver kp (heap ++ [Chan.make 1]) record trace (some heap.length) metadata =
      { status := .returned, kp := kp,
        heap := heap ++ [{ buf := [metadata], cap := 1, closed := false }],
        record := record, trace := trace ++ [.deliver heap.length metadata] } := by
  simp [deliver, Chan.make, Chan.send]

theorem delivered_fresh {μ π : Type} (r : SendResult μ π) (heap : List (Chan RecordMetadata))
    (ch : Chan RecordMetadata) (hc : r.record.metadataChan = some heap.length)
    (hh : r.heap = heap ++ [ch]) : r.delivered = ch.buf := by
  simp [SendResult.delivered, hc, hh]

theorem Send_keyError {μ π : Type} (kp : KafkaProducer μ π) (heap : List (Chan RecordMetadata))
    (record : ProducerRecord) (err : GoError) (hk : kp.keySerializer record.Key = .error err) :
    Send kp heap record =
      { status := .returned, kp := kp, heap := heapWith heap (errorMetadata err),
        record := { record with metadataChan := some heap.length },
        trace := [.keySerializer record.Key, .deliver heap.length (errorMetadata err)] } := by
  simp [Send, send, hk, deliver_fresh, heapWith, errorMetadata]

theorem Send_valueError {μ π : Type} (kp : KafkaProducer μ π) (heap : List (Chan RecordMetadata))
    (record : ProducerRecord) (k : Bytes) (err : GoError)
    (hk : kp.keySerializer record.Key = .ok k)
    (hv : kp.valueSerializer record.Value = .error err) :
    Send kp heap record =
      { status := .returned, kp := kp, heap := heapWith heap (errorMetadata err),
        record := { record with metadataChan := some heap.length },
        trace := [.keySerializer record.Key, .valueSerializer record.Value,
          .deliver heap.length (errorMetadata err)] } := by
  simp [Send, send, hk, hv, deliver_fresh, heapWith, errorMetadata]

theorem Send_getError {μ π : Type} (kp : KafkaProducer μ π) (heap : List (Chan RecordMetadata))
    (record : ProducerRecord) (k v : Bytes) (err : GoError)
    (hk : kp.keySerializer record.Key = .ok k)
    (hv : kp.valueSerializer record.Value = .ok v)
    (hg : (kp.metadata.Get kp.metadata.state record.Topic).1 = .error err) :
    Send kp heap record =
      { status := .returned, kp := afterGet kp record.Topic,
        heap := heapWith heap (errorMetadata err),
        record := encoded record heap k v,
        trace := [.keySerializer record.Key, .valueSerializer record.Value,
          .metadataGet record.Topic, .deliver heap.length (errorMetadata err)] } := by
  simp [Send, send, hk, hv, hg, deliver_fresh, heapWith, errorMetadata, encoded, afterGet]

theorem Send_partitionError {μ π : Type} (kp : KafkaProducer μ π)
    (heap : List (Chan RecordMetadata)) (record : ProducerRecord) (k v : Bytes)
    (partitions : List Int) (err : GoError)
    (hk : kp.keySerializer record.Key = .ok k)
    (hv : kp.valueSerializer record.Value = .ok v)
    (hg : (kp.metadata.Get kp.metadata.state record.Topic).1 = .ok partitions)
    (hp : (kp.config.Partitioner.Partition kp.config.Partitioner.state
      (encoded record heap k v) partitions).1 = .error err) :
    Send kp heap record =
      { status := .returned, kp := afterPartition kp (encoded record heap k v) partitions,
        heap := heapWith heap (errorMetadata err),
        record := encoded record heap k v,
        trace := [.keySerializer record.Key, .valueSerializer record.Value,
          .metadataGet record.Topic, .partition (encoded record heap k v) partitions,
          .deliver heap.length (errorMetadata err)] } := by
  simp only [encoded] at hp
  simp [Send, send, hk, hv, hg, hp, deliver_fresh, heapWith, errorMetadata, encoded, afterGet,
    afterPartition]

theorem Send_partitioned {μ π : Type} (kp : KafkaProducer μ π)
    (heap : List (Chan RecordMetadata)) (record : ProducerRecord) (k v : Bytes)
    (partitions : List Int) (partition : Int)
    (hk : kp.keySerializer record.Key = .ok k)
    (hv : kp.valueSerializer record.Value = .ok v)
    (hg : (kp.metadata.Get kp.metadata.state record.Topic).1 = .ok partitions)
    (hp : (kp.config.Partitioner.Partition kp.config.Partitioner.state
      (encoded record heap k v) partitions).1 = .ok partition) :
    Send kp heap record =
      enqueue (afterPartition kp (encoded record heap k v) partitions) (heap ++ [Chan.make 1])
        { encoded record heap k v with Partition := partition }
        [.keySerializer record.Key, .valueSerializer record.Value, .metadataGet record.Topic,
          .partition (encoded record heap k v) partitions, .setPartition partition] := by
  simp only [encoded] at hp
  simp [Send, send, hk, hv, hg, hp, encoded, afterGet, afterPartition]

/-- The inbound queue `NewKafkaProducer` makes is empty, open, and has capacity
`config.BatchSize`, which is then neither negative nor above the limit. -/
theorem NewKafkaProducer_queue {μ π : Type} (chanLimit : Nat) (config : ProducerConfig π)
    (keySerializer valueSerializer : Serializer) (metadata : Metadata μ)
    (kp : KafkaProducer μ π)
    (h : NewKafkaProducer chanLimit config keySerializer valueSerializer metadata = some kp) :
    kp.config = config ∧ kp.messagesChan.buf = [] ∧ kp.messagesChan.closed = false ∧
    kp.messagesChan.cap = kp.config.BatchSize.toNat ∧
    0 ≤ config.BatchSize ∧ config.BatchSize ≤ chanLimit := by
  unfold NewKafkaProducer at h
  by_cases hb : config.BatchSize < 0 ∨ (chanLimit : Int) < config.BatchSize
  · simp [hb] at h
  · simp only [hb, if_false, Option.some.injEq] at h
    subst h
    refine ⟨rfl, rfl, rfl, rfl, ?_, ?_⟩ <;> omega

/-- Every call of `Send` either fails at one of the four checks, and then has returned
with one error metadata on the fresh channel, or passes all four and is at the enqueue. -/
theorem Send_outcome {μ π : Type} (kp : KafkaProducer μ π)
    (heap : List (Chan RecordMetadata)) (record : ProducerRecord) :
    (∃ err, (Send kp heap record).status = .returned ∧
      (Send kp heap record).heap = heapWith heap (errorMetadata err) ∧
      (Send kp heap record).record.metadataChan = some heap.length ∧
      (Send kp heap record).kp.messagesChan = kp.messagesChan ∧
      ∀ ch md, Call.deliver ch md ∈ (Send kp heap record).trace → md = errorMetadata err) ∨
    (∃ k v partitions partition,
      kp.keySerializer record.Key = .ok k ∧
      kp.valueSerializer record.Value = .ok v ∧
      (kp.metadata.Get kp.metadata.state record.Topic).1 = .ok partitions ∧
      (kp.config.Partitioner.Partition kp.config.Partitioner.state
        (encoded record heap k v) partitions).1 = .ok partition) := by
  cases hk : kp.keySerializer record.Key with
  | error err =>
    left; refine ⟨err, ?_⟩
    rw [Send_keyError kp heap record err hk]; simp
  | ok k =>
    cases hv : kp.valueSerializer record.Value with
    | error err =>
      left; refine ⟨err, ?_⟩
      rw [Send_valueError kp heap record k err hk hv]; simp
    | ok v =>
      cases hg : (kp.metadata.Get kp.metadata.state record.Topic).1 with
      | error err =>
        left; refine ⟨err, ?_⟩
        rw [Send_getError kp heap record k v err hk hv hg]; simp [encoded, afterGet]
      | ok partitions =>
        cases hp : (kp.config.Partitioner.Partition kp.config.Partitioner.state
            (encoded record heap k v) partitions).1 with
        | error err =>
          left; refine ⟨err, ?_⟩
          rw [Send_partitionError kp heap record k v partitions err hk hv hg hp]
          simp [encoded, afterGet, afterPartition]
        | ok partition =>
          right; exact ⟨k, v, partitions, partition, rfl, rfl, rfl, hp⟩

/-- Whatever the enqueue does, it leaves the delivery channels and the record alone. -/
theorem enqueue_frame {μ π : Type} (kp : KafkaProducer μ π) (heap : List (Chan RecordMetadata))
    (record : ProducerRecord) (trace : List Call) :
    (enqueue kp heap record trace).heap = heap ∧ (enqueue kp heap record trace).record = record ∧
    (∀ ch md, Call.deliver ch md ∈ (enqueue kp heap record trace).trace →
      Call.deliver ch md ∈ trace) := by
  unfold enqueue
  cases kp.messagesChan.send record <;> simp

theorem messageDispatchStep_eq :
    messageDispatchStep = routeStep ProducerRecord.Topic Sink.make Sink.push := by
  funext st message
  unfold messageDispatchStep routeStep
  cases mapGet st.accumulators message.Topic <;> rfl

theorem topicDispatchStep_eq :
    topicDispatchStep = routeStep ProducerRecord.Partition NewRecordAccumulator
      (fun a m => { a with input := a.input.push m }) := by
  funext st message
  unfold topicDispatchStep routeStep
  cases mapGet st.accumulators message.Partition <;> rfl

theorem messageDispatchClose_eq (order : List String → List String) :
    messageDispatchClose order = routeClose Sink.close order := rfl

theorem topicDispatchClose_eq (order : List Int → List Int) :
    topicDispatchClose order =
      routeClose (fun a => { a with closeChan := a.closeChan.close }) order := rfl

/-! ## Facts about maps -/

section Maps
variable {κ ν : Type} [DecidableEq κ]

theorem mapGet_mapSet (m : GoMap κ ν) (k k1 : κ) (v : ν) :
    mapGet (mapSet m k v) k1 = if k = k1 then some v else mapGet m k1 := by
  induction m with
  | nil => simp [mapSet, mapGet]
  | cons e m ih =>
    obtain ⟨k2, v2⟩ := e
    by_cases h : k2 = k
    · subst h
      by_cases h1 : k2 = k1 <;> simp [mapSet, mapGet, h1]
    · by_cases h1 : k2 = k1
      · subst h1
        have : ¬ k = k2 := fun e => h e.symm
        simp [mapSet, mapGet, h, this]
      · simp [mapSet, mapGet, h, h1, ih]

theorem mapGet_mapModify (m : GoMap κ ν) (k k1 : κ) (f : ν → ν) :
    mapGet (mapModify m k f) k1 = if k = k1 then (mapGet m k1).map f else mapGet m k1 := by
  induction m with
  | nil => simp [mapModify, mapGet]
  | cons e m ih =>
    obtain ⟨k2, v2⟩ := e
    by_cases h : k2 = k
    · subst h
      by_cases h1 : k2 = k1
      · simp [mapModify, mapGet, h1]
      · simp [mapModify, mapGet, h1, ih]
    · by_cases h1 : k2 = k1
      · subst h1
        have : ¬ k = k2 := fun e => h e.symm
        simp [mapModify, mapGet, h, this]
      · simp [mapModify, mapGet, h, h1, ih]

theorem mapKeys_mapModify (m : GoMap κ ν) (k : κ) (f : ν → ν) :
    mapKeys (mapModify m k f) = mapKeys m := by
  induction m with
  | nil => rfl
  | cons e m ih =>
    obtain ⟨k2, v2⟩ := e
    simp only [mapKeys] at ih
    by_cases h : k2 = k <;> simp [mapModify, mapKeys, h, ih]

theorem mapKeys_mapSet (m : GoMap κ ν) (k : κ) (v : ν) :
    mapKeys (mapSet m k v) = if k ∈ mapKeys m then mapKeys m else mapKeys m ++ [k] := by
  induction m with
  | nil => simp [mapSet, mapKeys]
  | cons e m ih =>
    obtain ⟨k2, v2⟩ := e
    simp only [mapKeys, List.map_cons] at ih ⊢
    by_cases h : k2 = k
    · subst h
      simp [mapSet]
    · have hk : ¬ k = k2 := fun e => h e.symm
      simp only [mapSet, h, if_false, List.map_cons, ih, List.mem_cons, hk, false_or]
      by_cases hm : k ∈ List.map Prod.fst m <;> simp [hm]

theorem mapGet_eq_none_iff (m : GoMap κ ν) (k : κ) : mapGet m k = none ↔ k ∉ mapKeys m := by
  induction m with
  | nil => simp [mapGet, mapKeys]
  | cons e m ih =>
    obtain ⟨k2, v2⟩ := e
    simp only [mapKeys, List.map_cons, List.mem_cons] at ih ⊢
    by_cases h : k2 = k
    · subst h; simp [mapGet]
    · have hk : ¬ k = k2 := fun e => h e.symm
      simp [mapGet, h, hk, ih]

end Maps

/-! ## Facts about the shape shared by the two loops -/

section Route
variable {κ ν : Type} [DecidableEq κ]
variable (key : ProducerRecord → κ) (make : ν) (push : ν → ProducerRecord → ν)

theorem routeStep_get (st : Dispatch κ ν) (message : ProducerRecord) (k : κ) :
    mapGet (routeStep key make push st message).accumulators k =
      if key message = k then some (push ((mapGet st.accumulators k).getD make) message)
      else mapGet st.accumulators k := by
  unfold routeStep
  cases h : mapGet st.accumulators (key message) with
  | none =>
    by_cases hk : key message = k
    · subst hk; simp [mapGet_mapModify, mapGet_mapSet, h]
    · simp [mapGet_mapModify, mapGet_mapSet, hk]
  | some a =>
    by_cases hk : key message = k
    · subst hk; simp [mapGet_mapModify, h]
    · simp [mapGet_mapModify, hk]

theorem routeStep_keys (st : Dispatch κ ν) (message : ProducerRecord) :
    mapKeys (routeStep key make push st message).accumulators =
      if key message ∈ mapKeys st.accumulators then mapKeys st.accumulators
      else mapKeys st.accumulators ++ [key message] := by
  unfold routeStep
  cases h : mapGet st.accumulators (key message) with
  | none =>
    have hn := (mapGet_eq_none_iff st.accumulators (key message)).1 h
    simp [mapKeys_mapModify, mapKeys_mapSet, hn]
  | some a =>
    have hn : key message ∈ mapKeys st.accumulators := by
      by_contra hc
      rw [(mapGet_eq_none_iff st.accumulators (key message)).2 hc] at h
      cases h
    simp [mapKeys_mapModify, hn]

theorem routeStep_trace (st : Dispatch κ ν) (message : ProducerRecord) :
    (routeStep key make push st message).trace =
      st.trace ++ ((if key message ∈ mapKeys st.accumulators then []
        else [DispatchEvent.create (key message)]) ++
        [DispatchEvent.forward (key message) message]) := by
  unfold routeStep
  cases h : mapGet st.accumulators (key message) with
  | none =>
    have hn := (mapGet_eq_none_iff st.accumulators (key message)).1 h
    simp [hn]
  | some a =>
    have hn : key message ∈ mapKeys st.accumulators := by
      by_contra hc
      rw [(mapGet_eq_none_iff st.accumulators (key message)).2 hc] at h
      cases h
    simp [hn]

theorem routeStep_exited (st : Dispatch κ ν) (message : ProducerRecord) :
    (routeStep key make push st message).exited = st.exited := by
  unfold routeStep
  cases mapGet st.accumulators (key message) <;> rfl

theorem route_exited (st : Dispatch κ ν) (msgs : List ProducerRecord) :
    (msgs.foldl (routeStep key make push) st).exited = st.exited := by
  induction msgs generalizing st with
  | nil => rfl
  | cons m ms ih => rw [List.foldl_cons, ih, routeStep_exited]

theorem route_trace_extends (st : Dispatch κ ν) (msgs : List ProducerRecord) :
    ∃ later, (msgs.foldl (routeStep key make push) st).trace = st.trace ++ later := by
  induction msgs generalizing st with
  | nil => exact ⟨[], by simp⟩
  | cons m ms ih =>
    obtain ⟨later, h⟩ := ih (routeStep key make push st m)
    rw [List.foldl_cons, h, routeStep_trace]
    exact ⟨_, List.append_assoc _ _ _⟩

theorem route_get (st : Dispatch κ ν) (msgs : List ProducerRecord) (k : κ) :
    mapGet (msgs.foldl (routeStep key make push) st).accumulators k =
      if msgs.filter (fun m => decide (key m = k)) = [] then mapGet st.accumulators k
      else some ((msgs.filter (fun m => decide (key m = k))).foldl push
        ((mapGet st.accumulators k).getD make)) := by
  induction msgs generalizing st with
  | nil => simp
  | cons m ms ih =>
    rw [List.foldl_cons, ih, routeStep_get]
    by_cases hk : key m = k
    · by_cases he : ms.filter (fun m => decide (key m = k)) = []
      · simp [hk, List.filter_cons, he]
      · simp [hk, List.filter_cons, he]
    · simp [hk, List.filter_cons]

theorem route_keys_nodup (st : Dispatch κ ν) (msgs : List ProducerRecord)
    (h : (mapKeys st.accumulators).Nodup) :
    (mapKeys (msgs.foldl (routeStep key make push) st).accumulators).Nodup := by
  induction msgs generalizing st with
  | nil => exact h
  | cons m ms ih =>
    rw [List.foldl_cons]
    apply ih
    rw [routeStep_keys]
    by_cases hm : key m ∈ mapKeys st.accumulators
    · simpa [hm] using h
    · simp only [hm, if_false]
      exact List.Nodup.append h (List.nodup_singleton _) (by simpa using hm)

theorem route_mem_keys (st : Dispatch κ ν) (msgs : List ProducerRecord) (k : κ) :
    k ∈ mapKeys (msgs.foldl (routeStep key make push) st).accumulators ↔
      k ∈ mapKeys st.accumulators ∨ k ∈ msgs.map key := by
  induction msgs generalizing st with
  | nil => simp
  | cons m ms ih =>
    rw [List.foldl_cons, ih, routeStep_keys]
    by_cases hm : key m ∈ mapKeys st.accumulators
    · simp only [hm, if_true, List.map_cons, List.mem_cons]
      constructor
      · rintro (h | h)
        · exact Or.inl h
        · exact Or.inr (Or.inr h)
      · rintro (h | h | h)
        · exact Or.inl h
        · exact Or.inl (h ▸ hm)
        · exact Or.inr h
    · simp only [hm, if_false, List.map_cons, List.mem_cons, List.mem_append,
        List.mem_singleton]
      tauto

theorem route_forwarded (st : Dispatch κ ν) (msgs : List ProducerRecord) :
    (msgs.foldl (routeStep key make push) st).trace.filterMap DispatchEvent.forwarded =
      st.trace.filterMap DispatchEvent.forwarded ++ msgs.map fun m => (key m, m) := by
  induction msgs generalizing st with
  | nil => simp
  | cons m ms ih =>
    rw [List.foldl_cons, ih, routeStep_trace]
    by_cases hm : key m ∈ mapKeys st.accumulators <;>
      simp [hm, List.filterMap_append, DispatchEvent.forwarded]

theorem route_count_close (st : Dispatch κ ν) (msgs : List ProducerRecord) (k : κ) :
    (msgs.foldl (routeStep key make push) st).trace.count (DispatchEvent.close k) =
      st.trace.count (DispatchEvent.close k) := by
  induction msgs generalizing st with
  | nil => rfl
  | cons m ms ih =>
    rw [List.foldl_cons, ih, routeStep_trace]
    by_cases hm : key m ∈ mapKeys st.accumulators <;>
      simp [hm, List.count_cons, List.count_append]

theorem route_count_create (st : Dispatch κ ν) (msgs : List ProducerRecord) (k : κ) :
    (msgs.foldl (routeStep key make push) st).trace.count (DispatchEvent.create k) =
      st.trace.count (DispatchEvent.create k) +
        if k ∉ mapKeys st.accumulators ∧ k ∈ msgs.map key then 1 else 0 := by
  induction msgs generalizing st with
  | nil => simp
  | cons m ms ih =>
    rw [List.foldl_cons, ih, routeStep_trace, routeStep_keys]
    by_cases hm : key m ∈ mapKeys st.accumulators
    · have h1 : ∀ h : k = key m, k ∈ mapKeys st.accumulators := fun h => h ▸ hm
      by_cases hk : k ∈ mapKeys st.accumulators
      · simp [hm, hk, List.count_cons, List.count_append]
      · have hne : ¬ k = key m := fun h => hk (h1 h)
        simp [hm, hk, hne, List.count_cons, List.count_append]
    · by_cases hkm : k = key m
      · subst hkm
        simp [hm, List.count_cons, List.count_append]
      · have hkm2 : ¬ key m = k := fun h => hkm h.symm
        simp [hm, hkm, hkm2, List.count_cons, List.count_append]

end Route

section RouteLoop
variable {κ ν : Type} [DecidableEq κ]
variable (key : ProducerRecord → κ) (make : ν) (push : ν → ProducerRecord → ν)
variable (shut : ν → ν) (order : List κ → List κ)

theorem closeFold_trace (l : List κ) (st : Dispatch κ ν) :
    (l.foldl (fun s k => { s with
        accumulators := mapModify s.accumulators k shut
        trace := s.trace ++ [DispatchEvent.close k] }) st).trace =
      st.trace ++ l.map DispatchEvent.close := by
  induction l generalizing st with
  | nil => simp
  | cons a l ih => rw [List.foldl_cons, ih]; simp

theorem closeFold_get (l : List κ) (hl : l.Nodup) (st : Dispatch κ ν) (k : κ) :
    mapGet (l.foldl (fun s k => { s with
        accumulators := mapModify s.accumulators k shut
        trace := s.trace ++ [DispatchEvent.close k] }) st).accumulators k =
      if k ∈ l then (mapGet st.accumulators k).map shut else mapGet st.accumulators k := by
  induction l generalizing st with
  | nil => simp
  | cons a l ih =>
    rw [List.foldl_cons, ih (List.nodup_cons.1 hl).2]
    simp only [mapGet_mapModify]
    by_cases hak : a = k
    · subst hak
      simp [(List.nodup_cons.1 hl).1]
    · have hka : ¬ k = a := fun e => hak e.symm
      simp [hak, hka]

theorem routeClose_trace (st : Dispatch κ ν) :
    (routeClose shut order st).trace =
      st.trace ++ (order (mapKeys st.accumulators)).map DispatchEvent.close := by
  unfold routeClose
  exact closeFold_trace shut _ st

theorem routeClose_get (horder : ∀ l, (order l).Perm l) (st : Dispatch κ ν)
    (hst : (mapKeys st.accumulators).Nodup) (k : κ) :
    mapGet (routeClose shut order st).accumulators k = (mapGet st.accumulators k).map shut := by
  unfold routeClose
  rw [closeFold_get shut _ ((horder _).nodup_iff.2 hst) st k]
  by_cases hk : k ∈ mapKeys st.accumulators
  · simp [(horder _).mem_iff, hk]
  · simp [(horder _).mem_iff, hk, (mapGet_eq_none_iff st.accumulators k).2 hk]

/-- The common shape of the two loops as wholes. -/
theorem route_start_get (received : List ProducerRecord) (k : κ) :
    mapGet (received.foldl (routeStep key make push) Dispatch.start).accumulators k =
      if k ∈ received.map key
      then some ((received.filter (fun m => decide (key m = k))).foldl push make)
      else none := by
  rw [route_get]
  by_cases hk : k ∈ received.map key
  · have : ¬ received.filter (fun m => decide (key m = k)) = [] := by
      intro h
      rw [List.filter_eq_nil_iff] at h
      obtain ⟨m, hm, rfl⟩ := List.mem_map.1 hk
      exact h m hm (by simp)
    simp [hk, this, Dispatch.start, mapGet]
  · have : received.filter (fun m => decide (key m = k)) = [] := by
      rw [List.filter_eq_nil_iff]
      intro m hm hd
      exact hk (List.mem_map.2 ⟨m, hm, by simpa using hd⟩)
    simp [hk, this, Dispatch.start, mapGet]

theorem route_start_nodup (received : List ProducerRecord) :
    (mapKeys (received.foldl (routeStep key make push) Dispatch.start).accumulators).Nodup :=
  route_keys_nodup key make push _ received (by simp [Dispatch.start, mapKeys])

theorem route_start_mem_keys (received : List ProducerRecord) (k : κ) :
    k ∈ mapKeys (received.foldl (routeStep key make push) Dispatch.start).accumulators ↔
      k ∈ received.map key := by
  rw [route_mem_keys]
  simp [Dispatch.start, mapKeys]

theorem route_start_forwarded (received : List ProducerRecord) :
    (received.foldl (routeStep key make push) Dispatch.start).trace.filterMap
        DispatchEvent.forwarded = received.map fun m => (key m, m) := by
  rw [route_forwarded]
  simp [Dispatch.start]

theorem route_start_count_close (received : List ProducerRecord) (k : κ) :
    (received.foldl (routeStep key make push) Dispatch.start).trace.count
        (DispatchEvent.close k) = 0 := by
  rw [route_count_close]
  simp [Dispatch.start]

theorem route_start_count_create (received : List ProducerRecord) (k : κ) :
    (received.foldl (routeStep key make push) Dispatch.start).trace.count
        (DispatchEvent.create k) = if k ∈ received.map key then 1 else 0 := by
  rw [route_count_create]
  simp [Dispatch.start, mapKeys]

theorem count_close_map_close (l : List κ) (k : κ) :
    (l.map DispatchEvent.close).count (DispatchEvent.close k) = l.count k := by
  induction l with
  | nil => rfl
  | cons a l ih =>
    by_cases h : a = k
    · subst h; simp [List.count_cons, ih]
    · simp [List.count_cons, ih, h]

theorem count_create_map_close (l : List κ) (k : κ) :
    (l.map DispatchEvent.close).count (DispatchEvent.create k) = 0 := by
  induction l with
  | nil => rfl
  | cons a l ih => simp [List.count_cons, ih]

end RouteLoop

/-- Pushing records on a channel one after the other appends them in order. -/
theorem foldl_Sink_push {α : Type} (l : List α) (s : Sink α) :
    l.foldl Sink.push s = { sent := s.sent ++ l, closed := s.closed } := by
  induction l generalizing s with
  | nil => simp
  | cons a l ih => rw [List.foldl_cons, ih]; simp [Sink.push]

theorem foldl_input_push (l : List ProducerRecord) (a : RecordAccumulator) :
    l.foldl (fun (a : RecordAccumulator) m => { a with input := a.input.push m }) a =
      { a with input := { sent := a.input.sent ++ l, closed := a.input.closed } } := by
  induction l generalizing a with
  | nil => simp
  | cons m l ih => rw [List.foldl_cons, ih]; simp [Sink.push]

section RouteLoop2
variable {κ ν : Type} [DecidableEq κ]

theorem closeFold_get_proj {β : Type} (shut : ν → ν) (proj : ν → β)
    (hproj : ∀ a, proj (shut a) = proj a) (l : List κ) (st : Dispatch κ ν) (k : κ) :
    (mapGet (l.foldl (fun s k => { s with
        accumulators := mapModify s.accumulators k shut
        trace := s.trace ++ [DispatchEvent.close k] }) st).accumulators k).map proj =
      (mapGet st.accumulators k).map proj := by
  induction l generalizing st with
  | nil => simp
  | cons a l ih =>
    rw [List.foldl_cons, ih]
    simp only [mapGet_mapModify]
    by_cases hak : a = k
    · simp only [hak, if_true, Option.map_map]
      congr 1
      funext x
      exact hproj x
    · simp [hak]

end RouteLoop2

/-! ## The two loops -/

theorem messageDispatchLoop_open (order : List String → List String)
    (received : List ProducerRecord) :
    messageDispatchLoop order received false =
      received.foldl (routeStep ProducerRecord.Topic Sink.make Sink.push) Dispatch.start := by
  simp [messageDispatchLoop, messageDispatchStep_eq]

theorem messageDispatchLoop_closed (order : List String → List String)
    (received : List ProducerRecord) :
    messageDispatchLoop order received true =
      { routeClose Sink.close order (messageDispatchLoop order received false) with
        exited := true } := by
  simp [messageDispatchLoop, messageDispatchClose_eq]

theorem topicDispatchLoop_open (order : List Int → List Int) (received : List ProducerRecord) :
    topicDispatchLoop order received false =
      received.foldl (routeStep ProducerRecord.Partition NewRecordAccumulator
        (fun a m => { a with input := a.input.push m })) Dispatch.start := by
  simp [topicDispatchLoop, topicDispatchStep_eq]

theorem topicDispatchLoop_closed (order : List Int → List Int) (received : List ProducerRecord) :
    topicDispatchLoop order received true =
      { routeClose (fun a => { a with closeChan := a.closeChan.close }) order
          (topicDispatchLoop order received false) with exited := true } := by
  simp [topicDispatchLoop, topicDispatchClose_eq]

theorem messageDispatchLoop_trace (order : List String → List String)
    (received : List ProducerRecord) (closed : Bool) :
    (messageDispatchLoop order received closed).trace =
      (messageDispatchLoop order received false).trace ++
        if closed then (order (mapKeys (messageDispatchLoop order received false).accumulators)).map
          DispatchEvent.close else [] := by
  cases closed
  · simp
  · rw [messageDispatchLoop_closed]; simp [routeClose_trace]

theorem topicDispatchLoop_trace (order : List Int → List Int)
    (received : List ProducerRecord) (closed : Bool) :
    (topicDispatchLoop order received closed).trace =
      (topicDispatchLoop order received false).trace ++
        if closed then (order (mapKeys (topicDispatchLoop order received false).accumulators)).map
          DispatchEvent.close else [] := by
  cases closed
  · simp
  · rw [topicDispatchLoop_closed]; simp [routeClose_trace]

theorem messageDispatchLoop_sent (order : List String → List String)
    (received : List ProducerRecord) (closed : Bool) (topic : String) :
    (mapGet (messageDispatchLoop order received closed).accumulators topic).map (fun q => q.sent) =
      if topic ∈ received.map ProducerRecord.Topic
      then some (received.filter fun m => decide (m.Topic = topic)) else none := by
  have hopen : (mapGet (messageDispatchLoop order received false).accumulators topic).map
      (fun q => q.sent) = if topic ∈ received.map ProducerRecord.Topic
      then some (received.filter fun m => decide (m.Topic = topic)) else none := by
    rw [messageDispatchLoop_open, route_start_get]
    by_cases h : topic ∈ received.map ProducerRecord.Topic
    · simp only [h, if_true, Option.map_some', foldl_Sink_push]
      simp [Sink.make]
    · simp only [h, if_false, Option.map_none']
  cases closed
  · exact hopen
  · rw [messageDispatchLoop_closed, ← hopen]
    exact closeFold_get_proj Sink.close (fun q => q.sent) (fun _ => rfl) _ _ topic

theorem topicDispatchLoop_sent (order : List Int → List Int)
    (received : List ProducerRecord) (closed : Bool) (partition : Int) :
    (mapGet (topicDispatchLoop order received closed).accumulators partition).map
        (fun a => a.input) =
      if partition ∈ received.map ProducerRecord.Partition
      then some { sent := received.filter fun m => decide (m.Partition = partition),
                  closed := false }
      else none := by
  have hopen : (mapGet (topicDispatchLoop order received false).accumulators partition).map
      (fun a => a.input) = if partition ∈ received.map ProducerRecord.Partition
      then some { sent := received.filter fun m => decide (m.Partition = partition),
                  closed := false }
      else none := by
    rw [topicDispatchLoop_open, route_start_get]
    by_cases h : partition ∈ received.map ProducerRecord.Partition
    · simp only [h, if_true, Option.map_some', foldl_input_push]
      simp [NewRecordAccumulator, Sink.make]
    · simp only [h, if_false, Option.map_none']
  cases closed
  · exact hopen
  · rw [topicDispatchLoop_closed, ← hopen]
    exact closeFold_get_proj
      (fun (a : RecordAccumulator) => { a with closeChan := a.closeChan.close })
      (fun (a : RecordAccumulator) => a.input) (fun _ => rfl) _ _ partition

theorem messageDispatchLoop_forwarded (order : List String → List String)
    (received : List ProducerRecord) (closed : Bool) :
    (messageDispatchLoop order received closed).trace.filterMap DispatchEvent.forwarded =
      received.map fun m => (m.Topic, m) := by
  rw [messageDispatchLoop_trace, List.filterMap_append, messageDispatchLoop_open,
    route_start_forwarded]
  cases closed <;> simp [DispatchEvent.forwarded]

theorem topicDispatchLoop_forwarded (order : List Int → List Int)
    (received : List ProducerRecord) (closed : Bool) :
    (topicDispatchLoop order received closed).trace.filterMap DispatchEvent.forwarded =
      received.map fun m => (m.Partition, m) := by
  rw [topicDispatchLoop_trace, List.filterMap_append, topicDispatchLoop_open,
    route_start_forwarded]
  cases closed <;> simp [DispatchEvent.forwarded]

theorem messageDispatchLoop_count_create (order : List String → List String)
    (received : List ProducerRecord) (closed : Bool) (topic : String) :
    (messageDispatchLoop order received closed).trace.count (DispatchEvent.create topic) =
      if topic ∈ received.map ProducerRecord.Topic then 1 else 0 := by
  rw [messageDispatchLoop_trace, List.count_append, messageDispatchLoop_open,
    route_start_count_create]
  cases closed <;> simp [count_create_map_close]

theorem topicDispatchLoop_count_create (order : List Int → List Int)
    (received : List ProducerRecord) (closed : Bool) (partition : Int) :
    (topicDispatchLoop order received closed).trace.count (DispatchEvent.create partition) =
      if partition ∈ received.map ProducerRecord.Partition then 1 else 0 := by
  rw [topicDispatchLoop_trace, List.count_append, topicDispatchLoop_open,
    route_start_count_create]
  cases closed <;> simp [count_create_map_close]

theorem messageDispatchLoop_extends (order : List String → List String)
    (pre post : List ProducerRecord) (closed : Bool) :
    ∃ later, (messageDispatchLoop order (pre ++ post) closed).trace =
      (messageDispatchLoop order pre false).trace ++ later := by
  rw [messageDispatchLoop_trace, messageDispatchLoop_open, messageDispatchLoop_open,
    List.foldl_append]
  obtain ⟨later, h⟩ := route_trace_extends ProducerRecord.Topic Sink.make Sink.push
    (pre.foldl (routeStep ProducerRecord.Topic Sink.make Sink.push) Dispatch.start) post
  rw [h]
  exact ⟨_, List.append_assoc _ _ _⟩

theorem topicDispatchLoop_extends (order : List Int → List Int)
    (pre post : List ProducerRecord) (closed : Bool) :
    ∃ later, (topicDispatchLoop order (pre ++ post) closed).trace =
      (topicDispatchLoop order pre false).trace ++ later := by
  rw [topicDispatchLoop_trace, topicDispatchLoop_open, topicDispatchLoop_open,
    List.foldl_append]
  obtain ⟨later, h⟩ := route_trace_extends ProducerRecord.Partition NewRecordAccumulator
    (fun a m => { a with input := a.input.push m })
    (pre.foldl (routeStep ProducerRecord.Partition NewRecordAccumulator
      (fun a m => { a with input := a.input.push m })) Dispatch.start) post
  rw [h]
  exact ⟨_, List.append_assoc _ _ _⟩

theorem accumulatorOf_input (order1 : List String → List String) (order2 : List Int → List Int)
    (received : List ProducerRecord) (closed : Bool) (topic : String) (partition : Int) :
    (accumulatorOf order1 order2 received closed topic partition).map (fun a => a.input) =
      if (topic, partition) ∈ received.map (fun m => (m.Topic, m.Partition))
      then some { sent := received.filter fun m =>
                    decide (m.Topic = topic ∧ m.Partition = partition),
                  closed := false }
      else none := by
  have hs := messageDispatchLoop_sent order1 received closed topic
  unfold accumulatorOf
  cases hq : mapGet (messageDispatchLoop order1 received closed).accumulators topic with
  | none =>
    rw [hq] at hs
    have : topic ∉ received.map ProducerRecord.Topic := by
      intro h; simp [h] at hs
    have h2 : (topic, partition) ∉ received.map (fun m => (m.Topic, m.Partition)) := by
      intro h
      obtain ⟨m, hm, he⟩ := List.mem_map.1 h
      exact this (List.mem_map.2 ⟨m, hm, (Prod.mk.inj he).1⟩)
    simp [h2]
  | some queue =>
    rw [hq] at hs
    have hmem : topic ∈ received.map ProducerRecord.Topic := by
      by_contra h; simp [h] at hs
    have hsent : queue.sent = received.filter fun m => decide (m.Topic = topic) := by
      simpa [hmem] using hs
    simp only []
    rw [topicDispatchLoop_sent, hsent]
    have hiff : partition ∈ (received.filter fun m => decide (m.Topic = topic)).map
        ProducerRecord.Partition ↔
        (topic, partition) ∈ received.map (fun m => (m.Topic, m.Partition)) := by
      simp only [List.mem_map, List.mem_filter, decide_eq_true_eq, Prod.mk.injEq]
      constructor
      · rintro ⟨m, ⟨hm, ht⟩, hp⟩; exact ⟨m, hm, ht, hp⟩
      · rintro ⟨m, hm, ht, hp⟩; exact ⟨m, ⟨hm, ht⟩, hp⟩
    by_cases hp : (topic, partition) ∈ received.map (fun m => (m.Topic, m.Partition))
    · simp only [hiff.2 hp, hp, if_true, List.filter_filter]
      congr 2
      apply List.filter_congr
      intro m _
      by_cases a : m.Topic = topic <;> by_cases b : m.Partition = partition <;> simp [a, b]
    · have : ¬ partition ∈ (received.filter fun m => decide (m.Topic = topic)).map
          ProducerRecord.Partition := fun h => hp (hiff.1 h)
      simp only [this, hp, if_false]

theorem messageDispatchLoop_exited (order : List String → List String)
    (received : List ProducerRecord) (closed : Bool) :
    (messageDispatchLoop order received closed).exited = closed := by
  cases closed
  · rw [messageDispatchLoop_open, route_exited]; rfl
  · rw [messageDispatchLoop_closed]

theorem topicDispatchLoop_exited (order : List Int → List Int)
    (received : List ProducerRecord) (closed : Bool) :
    (topicDispatchLoop order received closed).exited = closed := by
  cases closed
  · rw [topicDispatchLoop_open, route_exited]; rfl
  · rw [topicDispatchLoop_closed]

theorem messageDispatchLoop_get (order : List String → List String)
    (horder : ∀ l, (order l).Perm l)
    (received : List ProducerRecord) (closed : Bool) (topic : String) :
    mapGet (messageDispatchLoop order received closed).accumulators topic =
      if topic ∈ received.map ProducerRecord.Topic
      then some { sent := received.filter fun m => decide (m.Topic = topic), closed := closed }
      else none := by
  have hopen : mapGet (messageDispatchLoop order received false).accumulators topic =
      if topic ∈ received.map ProducerRecord.Topic
      then some { sent := received.filter fun m => decide (m.Topic = topic), closed := false }
      else none := by
    rw [messageDispatchLoop_open, route_start_get]
    by_cases h : topic ∈ received.map ProducerRecord.Topic
    · simp only [h, if_true, foldl_Sink_push]
      simp [Sink.make]
    · simp only [h, if_false]
  cases closed
  · exact hopen
  · rw [messageDispatchLoop_closed]
    simp only []
    rw [routeClose_get Sink.close order horder _
      (by rw [messageDispatchLoop_open]; exact route_start_nodup _ _ _ received), hopen]
    by_cases h : topic ∈ received.map ProducerRecord.Topic
    · simp [h, Sink.close]
    · simp [h]

theorem topicDispatchLoop_get (order : List Int → List Int)
    (horder : ∀ l, (order l).Perm l)
    (received : List ProducerRecord) (closed : Bool) (partition : Int) :
    mapGet (topicDispatchLoop order received closed).accumulators partition =
      if partition ∈ received.map ProducerRecord.Partition
      then some
        { input := { sent := received.filter fun m => decide (m.Partition = partition),
                     closed := false }
          closeChan := { sent := [], closed := closed } }
      else none := by
  have hopen : mapGet (topicDispatchLoop order received false).accumulators partition =
      if partition ∈ received.map ProducerRecord.Partition
      then some
        { input := { sent := received.filter fun m => decide (m.Partition = partition),
                     closed := false }
          closeChan := { sent := [], closed := false } }
      else none := by
    rw [topicDispatchLoop_open, route_start_get]
    by_cases h : partition ∈ received.map ProducerRecord.Partition
    · simp only [h, if_true, foldl_input_push]
      simp [NewRecordAccumulator, Sink.make]
    · simp only [h, if_false]
  cases closed
  · exact hopen
  · rw [topicDispatchLoop_closed]
    simp only []
    rw [routeClose_get _ order horder _
      (by rw [topicDispatchLoop_open]; exact route_start_nodup _ _ _ received), hopen]
    by_cases h : partition ∈ received.map ProducerRecord.Partition
    · simp [h, Sink.close]
    · simp [h]

theorem messageDispatchLoop_count_close (order : List String → List String)
    (horder : ∀ l, (order l).Perm l)
    (received : List ProducerRecord) (closed : Bool) (topic : String) :
    (messageDispatchLoop order received closed).trace.count (DispatchEvent.close topic) =
      if closed = true ∧ topic ∈ received.map ProducerRecord.Topic then 1 else 0 := by
  rw [messageDispatchLoop_trace, List.count_append, messageDispatchLoop_open,
    route_start_count_close]
  cases closed
  · simp
  · simp only [if_true, count_close_map_close, (horder _).count_eq, true_and, zero_add]
    rw [List.count_eq_of_nodup (route_start_nodup _ _ _ received)]
    simp only [route_start_mem_keys]

theorem topicDispatchLoop_count_close (order : List Int → List Int)
    (horder : ∀ l, (order l).Perm l)
    (received : List ProducerRecord) (closed : Bool) (partition : Int) :
    (topicDispatchLoop order received closed).trace.count (DispatchEvent.close partition) =
      if closed = true ∧ partition ∈ received.map ProducerRecord.Partition then 1 else 0 := by
  rw [topicDispatchLoop_trace, List.count_append, topicDispatchLoop_open,
    route_start_count_close]
  cases closed
  · simp
  · simp only [if_true, count_close_map_close, (horder _).count_eq, true_and, zero_add]
    rw [List.count_eq_of_nodup (route_start_nodup _ _ _ received)]
    simp only [route_start_mem_keys]

theorem accumulatorOf_eq (order1 : List String → List String) (order2 : List Int → List Int)
    (h1 : ∀ l, (order1 l).Perm l) (h2 : ∀ l, (order2 l).Perm l)
    (received : List ProducerRecord) (closed : Bool) (topic : String) (partition : Int) :
    accumulatorOf order1 order2 received closed topic partition =
      if (topic, partition) ∈ received.map (fun m => (m.Topic, m.Partition))
      then some
        { input := { sent := received.filter fun m =>
                       decide (m.Topic = topic ∧ m.Partition = partition),
                     closed := false }
          closeChan := { sent := [], closed := closed } }
      else none := by
  have hin := accumulatorOf_input order1 order2 received closed topic partition
  unfold accumulatorOf at hin ⊢
  rw [messageDispatchLoop_get order1 h1] at hin ⊢
  by_cases ht : topic ∈ received.map ProducerRecord.Topic
  · simp only [ht, if_true] at hin ⊢
    rw [topicDispatchLoop_get order2 h2] at hin ⊢
    by_cases hp : (topic, partition) ∈ received.map (fun m => (m.Topic, m.Partition))
    · simp only [hp, if_true] at hin ⊢
      by_cases hq : partition ∈ (received.filter fun m => decide (m.Topic = topic)).map
          ProducerRecord.Partition
      · simp only [hq, if_true, Option.map_some', Option.some.injEq] at hin ⊢
        rw [hin]
      · simp [hq] at hin
    · simp only [hp, if_false] at hin ⊢
      by_cases hq : partition ∈ (received.filter fun m => decide (m.Topic = topic)).map
          ProducerRecord.Partition
      · simp [hq] at hin
      · simp [hq]
  · have hp : (topic, partition) ∉ received.map (fun m => (m.Topic, m.Partition)) := by
      intro h
      obtain ⟨m, hm, he⟩ := List.mem_map.1 h
      exact ht (List.mem_map.2 ⟨m, hm, (Prod.mk.inj he).1⟩)
    simp [ht, hp]

theorem splitComma_ne_nil (s : List Char) : splitComma s ≠ [] := by
  induction s with
  | nil => simp [splitComma]
  | cons c cs ih =>
    unfold splitComma
    by_cases h : c = ','
    · simp [h]
    · simp only [h, if_false]
      cases hs : splitComma cs with
      | nil => simp
      | cons p ps => simp

theorem stringsSplit_length_pos (what : String) : 0 < (stringsSplit what).length := by
  unfold stringsSplit
  rw [List.length_map]
  exact List.length_pos.2 (splitComma_ne_nil _)

/-- Whenever loading succeeds, the broker list is the split of `bootstrap.servers`, and
`metadata.broker.list` is not read. -/
theorem brokerList_is_split_of_bootstrap {π : Type}
    (LoadNewMap : String → Except GoError (GoMap String String))
    (ParseDuration : String → Except GoError Int) (Atoi : String → Except GoError Int)
    (hashPartitioner : Partitioner π) (filename : String) (c : GoMap String String)
    (config : ProducerConfig π) (hc : LoadNewMap filename = .ok c)
    (h : ProducerConfigFromFile LoadNewMap ParseDuration Atoi hashPartitioner filename = .ok config) :
    config.BrokerList = stringsSplit (optionOf c "bootstrap.servers") := by
  have hpos := stringsSplit_length_pos (optionOf c "bootstrap.servers")
  have hne : ¬ (stringsSplit (optionOf c "bootstrap.servers")).length = 0 := by omega
  unfold ProducerConfigFromFile at h
  simp only [hc, setStringsConfig, hne, if_false] at h
  repeat' split at h
  all_goals (cases h; try rfl)

/-! ## The claims -/

/-- C1. When the key serializer fails on `record.Key`, or it succeeds and the value
serializer fails on `record.Value`, `Send` returns with exactly one `RecordMetadata` on the
record's delivery channel, whose `Error` is the serializer's error; no other channel of
the heap is touched, `messagesChan`, the metadata cache and the partitioner are as they
were, and the trace holds neither a call of `Get` nor a call of `Partition`. -/
theorem Send_serializer_failure {μ π : Type} (kp : KafkaProducer μ π)
    (heap : List (Chan RecordMetadata)) (record : ProducerRecord) (err : GoError)
    (h : kp.keySerializer record.Key = .error err ∨
      ((∃ k, kp.keySerializer record.Key = .ok k) ∧
        kp.valueSerializer record.Value = .error err)) :
    (Send kp heap record).status = .returned ∧
    (Send kp heap record).delivered = [errorMetadata err] ∧
    (Send kp heap record).heap = heap ++ [{ buf := [errorMetadata err], cap := 1, closed := false }] ∧
    (Send kp heap record).kp.messagesChan = kp.messagesChan ∧
    (Send kp heap record).kp.metadata.state = kp.metadata.state ∧
    (Send kp heap record).kp.config.Partitioner.state = kp.config.Partitioner.state ∧
    (∀ c ∈ (Send kp heap record).trace,
      (∀ topic, c ≠ .metadataGet topic) ∧ ∀ r partitions, c ≠ .partition r partitions) := by
  rcases h with hk | ⟨⟨k, hk⟩, hv⟩
  · rw [Send_keyError kp heap record err hk]
    simp [SendResult.delivered, heapWith]
  · rw [Send_valueError kp heap record k err hk hv]
    simp [SendResult.delivered, heapWith]

theorem Send_serializer_failure_witness :
    (StringSerializer (GoValue.other "int" (goString "42")) = .error ⟨goString "Can't serialize 42 to string"⟩ ∨
      ((∃ k, StringSerializer (GoValue.other "int" (goString "42")) = .ok k) ∧
        ByteSerializer GoValue.nil = .error ⟨goString "Can't serialize 42 to string"⟩)) ∧
    (Send (demoProducer (Chan.make 1) true) []
      (demoRecord "orders" (.other "int" (goString "42")) .nil)).status = .returned ∧
    (Send (demoProducer (Chan.make 1) true) []
      (demoRecord "orders" (.other "int" (goString "42")) .nil)).delivered =
        [errorMetadata ⟨goString "Can't serialize 42 to string"⟩] ∧
    (Send (demoProducer (Chan.make 1) true) []
      (demoRecord "orders" (.other "int" (goString "42")) .nil)).kp.messagesChan = Chan.make 1 :=
  have h := Send_serializer_failure (demoProducer (Chan.make 1) true) []
    (demoRecord "orders" (.other "int" (goString "42")) .nil) ⟨goString "Can't serialize 42 to string"⟩
    (Or.inl (by decide))
  ⟨Or.inl (by decide), h.1, h.2.1, h.2.2.2.1⟩

/-- C2. When both serializers succeed and `Get(record.Topic)` fails, or `Get` succeeds and
`Partition` fails, `Send` returns with exactly one `RecordMetadata` carrying that error on
the record's delivery channel; `messagesChan` is unchanged and nothing is enqueued, the
partition field is never written and keeps the value it had, and when it is `Get` that
fails the trace holds no call of `Partition`. -/
theorem Send_lookup_failure {μ π : Type} (kp : KafkaProducer μ π)
    (heap : List (Chan RecordMetadata)) (record : ProducerRecord) (k v : Bytes) (err : GoError)
    (hk : kp.keySerializer record.Key = .ok k)
    (hv : kp.valueSerializer record.Value = .ok v)
    (h : (kp.metadata.Get kp.metadata.state record.Topic).1 = .error err ∨
      ∃ partitions, (kp.metadata.Get kp.metadata.state record.Topic).1 = .ok partitions ∧
        (kp.config.Partitioner.Partition kp.config.Partitioner.state
          (encoded record heap k v) partitions).1 = .error err) :
    (Send kp heap record).status = .returned ∧
    (Send kp heap record).delivered = [errorMetadata err] ∧
    (Send kp heap record).kp.messagesChan = kp.messagesChan ∧
    (Send kp heap record).record.Partition = record.Partition ∧
    (∀ c ∈ (Send kp heap record).trace, (∀ p, c ≠ .setPartition p) ∧ ∀ r, c ≠ .enqueue r) ∧
    ((kp.metadata.Get kp.metadata.state record.Topic).1 = .error err →
      ∀ c ∈ (Send kp heap record).trace, ∀ r partitions, c ≠ .partition r partitions) := by
  rcases h with hg | ⟨partitions, hg, hp⟩
  · rw [Send_getError kp heap record k v err hk hv hg]
    simp [SendResult.delivered, heapWith, encoded, afterGet]
  · rw [Send_partitionError kp heap record k v partitions err hk hv hg hp]
    simp [SendResult.delivered, heapWith, encoded, afterPartition, afterGet, hg]

theorem Send_lookup_failure_witness :
    StringSerializer (GoValue.string (goString "k")) = .ok (some [107]) ∧
    ByteSerializer GoValue.nil = .ok none ∧
    (demoMetadata.Get () "nowhere").1 = .error ⟨goString "unknown topic"⟩ ∧
    (Send (demoProducer (Chan.make 1) true) [] (demoRecord "nowhere" (.string (goString "k")) .nil)).status =
      .returned ∧
    (Send (demoProducer (Chan.make 1) true) []
      (demoRecord "nowhere" (.string (goString "k")) .nil)).delivered = [errorMetadata ⟨goString "unknown topic"⟩] ∧
    (Send (demoProducer (Chan.make 1) true) []
      (demoRecord "nowhere" (.string (goString "k")) .nil)).kp.messagesChan = Chan.make 1 ∧
    (Send (demoProducer (Chan.make 1) true) []
      (demoRecord "nowhere" (.string (goString "k")) .nil)).record.Partition = 7 :=
  have h := Send_lookup_failure (demoProducer (Chan.make 1) true) []
    (demoRecord "nowhere" (.string (goString "k")) .nil) (some [107]) none ⟨goString "unknown topic"⟩
    (by decide) (by decide) (Or.inl (by decide))
  ⟨by decide, by decide, by decide, h.1, h.2.1, h.2.2.1, h.2.2.2.1⟩

/-- C3. When both serializers, `Get(record.Topic)` and `Partition` succeed on a producer
that has not been closed and whose inbound queue has room, `Send` returns; the record's
partition is the id `Partition` returned for the record (as it is after serialization) and
the list `Get` returned; the partition field is written once, with that id; the record is
the last element of the inbound queue, behind what was there; and `Send` puts nothing on
the record's delivery channel. -/
theorem Send_success {μ π : Type} (kp : KafkaProducer μ π)
    (heap : List (Chan RecordMetadata)) (record : ProducerRecord) (k v : Bytes)
    (partitions : List Int) (partition : Int)
    (hk : kp.keySerializer record.Key = .ok k)
    (hv : kp.valueSerializer record.Value = .ok v)
    (hg : (kp.metadata.Get kp.metadata.state record.Topic).1 = .ok partitions)
    (hp : (kp.config.Partitioner.Partition kp.config.Partitioner.state
      (encoded record heap k v) partitions).1 = .ok partition)
    (hopen : kp.messagesChan.closed = false)
    (hspace : kp.messagesChan.buf.length < kp.messagesChan.cap) :
    (Send kp heap record).status = .returned ∧
    (Send kp heap record).record = { encoded record heap k v with Partition := partition } ∧
    (Send kp heap record).record.Partition = partition ∧
    (∀ p, (Send kp heap record).trace.count (.setPartition p) = if p = partition then 1 else 0) ∧
    (Send kp heap record).kp.messagesChan.buf =
      kp.messagesChan.buf ++ [(Send kp heap record).record] ∧
    (Send kp heap record).delivered = [] ∧
    (∀ c ∈ (Send kp heap record).trace, ∀ ch md, c ≠ .deliver ch md) := by
  rw [Send_partitioned kp heap record k v partitions partition hk hv hg hp]
  have hs : (afterPartition kp (encoded record heap k v) partitions).messagesChan.send
      { encoded record heap k v with Partition := partition } =
      .done { kp.messagesChan with buf := kp.messagesChan.buf ++
        [{ encoded record heap k v with Partition := partition }] } := by
    simp [Chan.send, afterPartition, afterGet, hopen, hspace]
  rw [enqueue, hs]
  refine ⟨rfl, rfl, rfl, ?_, rfl, ?_, ?_⟩
  · intro p
    by_cases hpp : p = partition
    · subst hpp; simp [List.count_cons, List.count_nil]
    · simp [List.count_cons, hpp]
  · simp [SendResult.delivered, encoded, Chan.make]
  · simp

theorem Send_success_witness :
    StringSerializer (GoValue.string (goString "k")) = .ok (some [107]) ∧
    ByteSerializer GoValue.nil = .ok none ∧
    (demoMetadata.Get () "orders").1 = .ok [0, 1, 2] ∧
    (demoPartitioner.Partition ()
      (encoded (demoRecord "orders" (.string (goString "k")) .nil) [] (some [107]) none) [0, 1, 2]).1 =
        .ok 0 ∧
    (Send (demoProducer (Chan.make 1) true) [] (demoRecord "orders" (.string (goString "k")) .nil)).status =
      .returned ∧
    (Send (demoProducer (Chan.make 1) true) []
      (demoRecord "orders" (.string (goString "k")) .nil)).record.Partition = 0 ∧
    (Send (demoProducer (Chan.make 1) true) []
      (demoRecord "orders" (.string (goString "k")) .nil)).kp.messagesChan.buf =
      [{ encoded (demoRecord "orders" (.string (goString "k")) .nil) [] (some [107]) none with
          Partition := 0 }] ∧
    (Send (demoProducer (Chan.make 1) true) []
      (demoRecord "orders" (.string (goString "k")) .nil)).delivered = [] :=
  have h := Send_success (demoProducer (Chan.make 1) true) []
    (demoRecord "orders" (.string (goString "k")) .nil) (some [107]) none [0, 1, 2] 0
    (by decide) (by decide) (by decide) (by decide) (by decide) (by decide)
  ⟨by decide, by decide, by decide, by decide, h.1, h.2.2.1,
    by rw [h.2.2.2.2.1, h.2.1]; rfl, h.2.2.2.2.2.1⟩

/-- C4. For every sequence `received` drained from the inbound queue, whether or not the
queue has been closed behind it, and whatever order the closing loops visit their maps in:
the top-level loop forwards every record once, in order, to the queue of its topic; it
creates that queue exactly once when a record has the topic and never otherwise, and the
queue carries the records of the topic in their order; what the loop has done after an
initial part of the records is an initial part of what it does in all, so that the one
creation is at the first record of the topic; a per-topic loop does the same with the
records of its queue and the accumulator of each partition; and so the input of the accumulator of a
topic and partition is exactly the subsequence of `received` with that topic and
partition, in order, and there is no accumulator for a pair that no record has. -/
theorem dispatch_keeps_partition_order
    (order1 : List String → List String) (order2 : List Int → List Int)
    (received : List ProducerRecord) (closed : Bool) (topic : String) (partition : Int) :
    (messageDispatchLoop order1 received closed).trace.filterMap DispatchEvent.forwarded =
      received.map (fun m => (m.Topic, m)) ∧
    (messageDispatchLoop order1 received closed).trace.count (DispatchEvent.create topic) =
      (if topic ∈ received.map ProducerRecord.Topic then 1 else 0) ∧
    (mapGet (messageDispatchLoop order1 received closed).accumulators topic).map
        (fun queue => queue.sent) =
      (if topic ∈ received.map ProducerRecord.Topic
       then some (received.filter fun m => decide (m.Topic = topic)) else none) ∧
    (∀ pre post, ∃ later, (messageDispatchLoop order1 (pre ++ post) closed).trace =
      (messageDispatchLoop order1 pre false).trace ++ later) ∧
    (∀ (queue : List ProducerRecord) (queueClosed : Bool),
      (topicDispatchLoop order2 queue queueClosed).trace.filterMap DispatchEvent.forwarded =
        queue.map (fun m => (m.Partition, m)) ∧
      (topicDispatchLoop order2 queue queueClosed).trace.count (DispatchEvent.create partition) =
        (if partition ∈ queue.map ProducerRecord.Partition then 1 else 0) ∧
      (mapGet (topicDispatchLoop order2 queue queueClosed).accumulators partition).map
          (fun accumulator => accumulator.input) =
        (if partition ∈ queue.map ProducerRecord.Partition
         then some { sent := queue.filter fun m => decide (m.Partition = partition),
                     closed := false }
         else none) ∧
      (∀ pre post, ∃ later, (topicDispatchLoop order2 (pre ++ post) queueClosed).trace =
        (topicDispatchLoop order2 pre false).trace ++ later)) ∧
    (accumulatorOf order1 order2 received closed topic partition).map
        (fun accumulator => accumulator.input) =
      (if (topic, partition) ∈ received.map (fun m => (m.Topic, m.Partition))
       then some { sent := received.filter fun m =>
                     decide (m.Topic = topic ∧ m.Partition = partition),
                   closed := false }
       else none) :=
  ⟨messageDispatchLoop_forwarded order1 received closed,
   messageDispatchLoop_count_create order1 received closed topic,
   messageDispatchLoop_sent order1 received closed topic,
   fun pre post => messageDispatchLoop_extends order1 pre post closed,
   fun queue queueClosed =>
     ⟨topicDispatchLoop_forwarded order2 queue queueClosed,
      topicDispatchLoop_count_create order2 queue queueClosed partition,
      topicDispatchLoop_sent order2 queue queueClosed partition,
      fun pre post => topicDispatchLoop_extends order2 pre post queueClosed⟩,
   accumulatorOf_input order1 order2 received closed topic partition⟩

/-- C5, amended: what a per-topic loop closes is the `closeChan` of each accumulator, the
`input` channel stays open.  After `Close` the inbound queue is closed; the top-level loop
then runs to its end, its trace being the trace of the `range` loop, which forwards every
record received and closes nothing, followed by one `close` for each queue it created;
while the inbound queue is open it closes nothing.  A per-topic loop does the same on the
records of its queue: it forwards them all, then closes the `closeChan` of each accumulator
it created, once, and does so only when its queue has been closed.  So an accumulator whose
`closeChan` is closed has been sent every record of its topic and partition. -/
theorem shutdown_cascade {μ π : Type}
    (order1 : List String → List String) (order2 : List Int → List Int)
    (h1 : ∀ l, (order1 l).Perm l) (h2 : ∀ l, (order2 l).Perm l)
    (kp kp1 : KafkaProducer μ π) (hc : Close kp = some kp1)
    (received : List ProducerRecord) (topic : String) (partition : Int) :
    kp1.messagesChan.closed = true ∧
    (messageDispatchLoop order1 received kp1.messagesChan.closed).exited = true ∧
    (messageDispatchLoop order1 received kp1.messagesChan.closed).trace =
      (messageDispatchLoop order1 received false).trace ++
        (order1 (mapKeys (messageDispatchLoop order1 received false).accumulators)).map
          DispatchEvent.close ∧
    (messageDispatchLoop order1 received false).trace.filterMap DispatchEvent.forwarded =
      received.map (fun m => (m.Topic, m)) ∧
    (∀ t, (messageDispatchLoop order1 received false).trace.count (DispatchEvent.close t) = 0) ∧
    (∀ t, (messageDispatchLoop order1 received kp1.messagesChan.closed).trace.count
        (DispatchEvent.close t) =
      (messageDispatchLoop order1 received kp1.messagesChan.closed).trace.count
        (DispatchEvent.create t)) ∧
    (∀ closed, mapGet (messageDispatchLoop order1 received closed).accumulators topic =
      if topic ∈ received.map ProducerRecord.Topic
      then some { sent := received.filter fun m => decide (m.Topic = topic), closed := closed }
      else none) ∧
    (∀ queue : List ProducerRecord,
      (topicDispatchLoop order2 queue true).exited = true ∧
      (topicDispatchLoop order2 queue false).exited = false ∧
      (topicDispatchLoop order2 queue true).trace =
        (topicDispatchLoop order2 queue false).trace ++
          (order2 (mapKeys (topicDispatchLoop order2 queue false).accumulators)).map
            DispatchEvent.close ∧
      (topicDispatchLoop order2 queue false).trace.filterMap DispatchEvent.forwarded =
        queue.map (fun m => (m.Partition, m)) ∧
      (∀ p, (topicDispatchLoop order2 queue false).trace.count (DispatchEvent.close p) = 0) ∧
      (∀ p, (topicDispatchLoop order2 queue true).trace.count (DispatchEvent.close p) =
        (topicDispatchLoop order2 queue true).trace.count (DispatchEvent.create p)) ∧
      (∀ closed, mapGet (topicDispatchLoop order2 queue closed).accumulators partition =
        if partition ∈ queue.map ProducerRecord.Partition
        then some
          { input := { sent := queue.filter fun m => decide (m.Partition = partition),
                       closed := false }
            closeChan := { sent := [], closed := closed } }
        else none)) ∧
    (∀ closed, accumulatorOf order1 order2 received closed topic partition =
      if (topic, partition) ∈ received.map (fun m => (m.Topic, m.Partition))
      then some
        { input := { sent := received.filter fun m =>
                       decide (m.Topic = topic ∧ m.Partition = partition),
                     closed := false }
          closeChan := { sent := [], closed := closed } }
      else none) := by
  have hclosed : kp1.messagesChan.closed = true := by
    unfold Close Chan.close at hc
    by_cases hcl : kp.messagesChan.closed = true
    · simp [hcl] at hc
    · simp [hcl] at hc; subst hc; rfl
  rw [hclosed]
  refine ⟨rfl, messageDispatchLoop_exited order1 received true, ?_,
    messageDispatchLoop_forwarded order1 received false, ?_, ?_,
    fun closed => messageDispatchLoop_get order1 h1 received closed topic, ?_,
    fun closed => accumulatorOf_eq order1 order2 h1 h2 received closed topic partition⟩
  · rw [messageDispatchLoop_trace]; simp
  · intro t
    rw [messageDispatchLoop_count_close order1 h1]; simp
  · intro t
    rw [messageDispatchLoop_count_close order1 h1, messageDispatchLoop_count_create]; simp
  · intro queue
    refine ⟨topicDispatchLoop_exited order2 queue true, topicDispatchLoop_exited order2 queue false,
      ?_, topicDispatchLoop_forwarded order2 queue false, ?_, ?_,
      fun closed => topicDispatchLoop_get order2 h2 queue closed partition⟩
    · rw [topicDispatchLoop_trace]; simp
    · intro p
      rw [topicDispatchLoop_count_close order2 h2]; simp
    · intro p
      rw [topicDispatchLoop_count_close order2 h2, topicDispatchLoop_count_create]; simp

theorem shutdown_cascade_witness :
    (∀ l : List String, l.reverse.Perm l) ∧ (∀ l : List Int, l.reverse.Perm l) ∧
    Close (demoProducer (Chan.make 1) false) = some demoClosed ∧
    (messageDispatchLoop List.reverse demoReceived demoClosed.messagesChan.closed).exited = true ∧
    accumulatorOf List.reverse List.reverse demoReceived true "orders" 1 =
      some
        { input :=
            { sent := [{ demoRecord "orders" (.string (goString "a")) .nil with Partition := 1 },
                       { demoRecord "orders" (.string (goString "d")) .nil with Partition := 1 }],
              closed := false }
          closeChan := { sent := [], closed := true } } :=
  have h := shutdown_cascade List.reverse List.reverse (fun l => List.reverse_perm l)
    (fun l => List.reverse_perm l) (demoProducer (Chan.make 1) false) demoClosed rfl
    demoReceived "orders" 1
  ⟨fun l => List.reverse_perm l, fun l => List.reverse_perm l, rfl, h.2.1,
    (h.2.2.2.2.2.2.2.2 true).trans (by decide)⟩

theorem accumulator_input_left_open :
    Close (demoProducer (Chan.make 1) false) = some demoClosed ∧
    (messageDispatchLoop List.reverse demoReceived demoClosed.messagesChan.closed).exited = true ∧
    (topicDispatchLoop List.reverse
      (demoReceived.filter fun m => decide (m.Topic = "orders")) true).exited = true ∧
    (mapGet (topicDispatchLoop List.reverse
      (demoReceived.filter fun m => decide (m.Topic = "orders")) true).accumulators 1).map
        (fun accumulator => (accumulator.input.closed, accumulator.closeChan.closed)) =
      some (false, true) ∧
    (accumulatorOf List.reverse List.reverse demoReceived true "orders" 1).map
        (fun accumulator => (accumulator.input.closed, accumulator.closeChan.closed)) =
      some (false, true) ∧
    ¬ (accumulatorOf List.reverse List.reverse demoReceived true "orders" 1).map
        (fun accumulator => accumulator.input.closed) = some true := by
  refine ⟨rfl, ?_, ?_, ?_, ?_, ?_⟩ <;> decide

/-- C7, amended: `Close` only closes the inbound queue.  For every record passed to `Send`
after `Close`, the inbound queue keeps the contents it had; `Send` returns, with one error
metadata on the delivery channel, when serialization, the metadata lookup or partitioning
fails, and otherwise panics with a send on the closed queue, having delivered nothing; it
panics whenever all four steps succeed. -/
theorem Send_after_Close {μ π : Type} (kp kp1 : KafkaProducer μ π)
    (heap : List (Chan RecordMetadata)) (record : ProducerRecord)
    (hc : Close kp = some kp1) :
    (Send kp1 heap record).kp.messagesChan = kp1.messagesChan ∧
    (Send kp1 heap record).kp.messagesChan.buf = kp.messagesChan.buf ∧
    (((Send kp1 heap record).status = .returned ∧
        ∃ err, (Send kp1 heap record).delivered = [errorMetadata err]) ∨
      ((Send kp1 heap record).status = .panicked "send on closed channel" ∧
        (Send kp1 heap record).delivered = [])) ∧
    ((∃ k v partitions partition,
        kp1.keySerializer record.Key = .ok k ∧
        kp1.valueSerializer record.Value = .ok v ∧
        (kp1.metadata.Get kp1.metadata.state record.Topic).1 = .ok partitions ∧
        (kp1.config.Partitioner.Partition kp1.config.Partitioner.state
          (encoded record heap k v) partitions).1 = .ok partition) →
      (Send kp1 heap record).status = .panicked "send on closed channel") := by
  have hclosed : kp1.messagesChan.closed = true ∧ kp1.messagesChan.buf = kp.messagesChan.buf := by
    unfold Close Chan.close at hc
    by_cases hcl : kp.messagesChan.closed = true
    · simp [hcl] at hc
    · simp [hcl] at hc; subst hc; simp
  have key : ∀ k v partitions partition,
      kp1.keySerializer record.Key = .ok k →
      kp1.valueSerializer record.Value = .ok v →
      (kp1.metadata.Get kp1.metadata.state record.Topic).1 = .ok partitions →
      (kp1.config.Partitioner.Partition kp1.config.Partitioner.state
        (encoded record heap k v) partitions).1 = .ok partition →
      (Send kp1 heap record).status = .panicked "send on closed channel" ∧
      (Send kp1 heap record).kp.messagesChan = kp1.messagesChan ∧
      (Send kp1 heap record).delivered = [] := by
    intro k v partitions partition hk hv hg hp
    rw [Send_partitioned kp1 heap record k v partitions partition hk hv hg hp]
    have hs : (afterPartition kp1 (encoded record heap k v) partitions).messagesChan.send
        { encoded record heap k v with Partition := partition } = .panics := by
      simp [Chan.send, afterPartition, afterGet, hclosed.1]
    rw [enqueue, hs]
    refine ⟨rfl, rfl, ?_⟩
    simp [SendResult.delivered, encoded, Chan.make]
  rcases Send_outcome kp1 heap record with ⟨err, hst, hheap, hch, hq, -⟩ | ⟨k, v, ps, p, hk, hv, hg, hp⟩
  · refine ⟨hq, by rw [hq, hclosed.2], Or.inl ⟨hst, err, ?_⟩, ?_⟩
    · rw [delivered_fresh _ heap _ hch hheap]
    · rintro ⟨k, v, ps, p, hk, hv, hg, hp⟩
      have := (key k v ps p hk hv hg hp).1
      rw [hst] at this
      cases this
  · obtain ⟨h1, h2, h3⟩ := key k v ps p hk hv hg hp
    exact ⟨h2, by rw [h2, hclosed.2], Or.inr ⟨h1, h3⟩, fun _ => h1⟩

theorem Send_after_Close_witness :
    Close (demoProducer (Chan.make 1) false) = some demoClosed ∧
    (Send demoClosed [] (demoRecord "orders" (.string (goString "k")) .nil)).kp.messagesChan.buf = [] ∧
    (Send demoClosed [] (demoRecord "orders" (.string (goString "k")) .nil)).status =
      .panicked "send on closed channel" :=
  have h := Send_after_Close (demoProducer (Chan.make 1) false) demoClosed []
    (demoRecord "orders" (.string (goString "k")) .nil) rfl
  ⟨rfl, h.2.1, h.2.2.2 ⟨some [107], none, [0, 1, 2], 0, by decide, by decide, by decide,
    by decide⟩⟩

theorem Send_after_Close_counterexample :
    Close (demoProducer (Chan.make 1) false) = some demoClosed ∧
    (Send demoClosed [] (demoRecord "orders" (.string (goString "k")) .nil)).status =
      .panicked "send on closed channel" ∧
    (Send demoClosed [] (demoRecord "orders" (.string (goString "k")) .nil)).status ≠ .returned :=
  ⟨rfl, by decide, by decide⟩

/-- C8, amended: `Send` delivers at most one `RecordMetadata`, and the one it delivers on a
failure path is `new(RecordMetadata)` with only `Error` set: `Record` is nil, `Topic` is
empty, `Offset` and `Partition` are zero, and `Error` is the error of the step that failed:
of the key serializer; or, the key serialized, of the value serializer; or, both
serialized, of `Get`; or, `Get` having succeeded, of `Partition`. -/
theorem Send_error_metadata_is_bare {μ π : Type} (kp : KafkaProducer μ π)
    (heap : List (Chan RecordMetadata)) (record : ProducerRecord) (md : RecordMetadata)
    (hmd : md ∈ (Send kp heap record).delivered) :
    (Send kp heap record).delivered = [md] ∧
    md.Record = none ∧ md.Topic = "" ∧ md.Offset = 0 ∧ md.Partition = 0 ∧
    ∃ err, md = { Record := none, Offset := 0, Topic := "", Partition := 0, Error := some err } ∧
      (kp.keySerializer record.Key = .error err ∨
        ∃ k, kp.keySerializer record.Key = .ok k ∧
          (kp.valueSerializer record.Value = .error err ∨
            ∃ v, kp.valueSerializer record.Value = .ok v ∧
              ((kp.metadata.Get kp.metadata.state record.Topic).1 = .error err ∨
                ∃ partitions,
                  (kp.metadata.Get kp.metadata.state record.Topic).1 = .ok partitions ∧
                  (kp.config.Partitioner.Partition kp.config.Partitioner.state
                    (encoded record heap k v) partitions).1 = .error err))) := by
  have hbare : ∀ err, md ∈ [errorMetadata err] →
      [errorMetadata err] = [md] ∧
      md.Record = none ∧ md.Topic = "" ∧ md.Offset = 0 ∧ md.Partition = 0 ∧
      md = { Record := none, Offset := 0, Topic := "", Partition := 0, Error := some err } := by
    intro err h
    have hm : md = errorMetadata err := by simpa using h
    subst hm
    simp [errorMetadata, RecordMetadata.new]
  cases hk : kp.keySerializer record.Key with
  | error err =>
    rw [Send_keyError kp heap record err hk] at hmd ⊢
    simp only [SendResult.delivered, heapWith, List.getElem?_concat_length] at hmd ⊢
    obtain ⟨h1, h2, h3, h4, h5, h6⟩ := hbare err hmd
    exact ⟨h1, h2, h3, h4, h5, err, h6, Or.inl rfl⟩
  | ok k =>
    cases hv : kp.valueSerializer record.Value with
    | error err =>
      rw [Send_valueError kp heap record k err hk hv] at hmd ⊢
      simp only [SendResult.delivered, heapWith, List.getElem?_concat_length] at hmd ⊢
      obtain ⟨h1, h2, h3, h4, h5, h6⟩ := hbare err hmd
      exact ⟨h1, h2, h3, h4, h5, err, h6, Or.inr ⟨k, rfl, Or.inl rfl⟩⟩
    | ok v =>
      cases hg : (kp.metadata.Get kp.metadata.state record.Topic).1 with
      | error err =>
        rw [Send_getError kp heap record k v err hk hv hg] at hmd ⊢
        simp only [SendResult.delivered, heapWith, encoded, List.getElem?_concat_length]
          at hmd ⊢
        obtain ⟨h1, h2, h3, h4, h5, h6⟩ := hbare err hmd
        exact ⟨h1, h2, h3, h4, h5, err, h6, Or.inr ⟨k, rfl, Or.inr ⟨v, rfl, Or.inl rfl⟩⟩⟩
      | ok partitions =>
        cases hp : (kp.config.Partitioner.Partition kp.config.Partitioner.state
            (encoded record heap k v) partitions).1 with
        | error err =>
          rw [Send_partitionError kp heap record k v partitions err hk hv hg hp] at hmd ⊢
          simp only [SendResult.delivered, heapWith, encoded, List.getElem?_concat_length]
            at hmd ⊢
          obtain ⟨h1, h2, h3, h4, h5, h6⟩ := hbare err hmd
          exact ⟨h1, h2, h3, h4, h5, err, h6,
            Or.inr ⟨k, rfl, Or.inr ⟨v, rfl, Or.inr ⟨partitions, rfl, hp⟩⟩⟩⟩
        | ok partition =>
          exfalso
          rw [Send_partitioned kp heap record k v partitions partition hk hv hg hp] at hmd
          obtain ⟨h1, h2, -⟩ := enqueue_frame
            (afterPartition kp (encoded record heap k v) partitions)
            (heap ++ [Chan.make 1]) { encoded record heap k v with Partition := partition }
            [.keySerializer record.Key, .valueSerializer record.Value,
              .metadataGet record.Topic, .partition (encoded record heap k v) partitions,
              .setPartition partition]
          rw [delivered_fresh _ heap (Chan.make 1) (by rw [h2]; rfl) h1] at hmd
          simp [Chan.make] at hmd

theorem Send_error_metadata_is_bare_witness :
    errorMetadata ⟨goString "Can't serialize 42 to string"⟩ ∈
      (Send (demoProducer (Chan.make 1) true) []
        (demoRecord "orders" (.other "int" (goString "42")) .nil)).delivered ∧
    (Send (demoProducer (Chan.make 1) true) []
        (demoRecord "orders" (.other "int" (goString "42")) .nil)).delivered =
      [errorMetadata ⟨goString "Can't serialize 42 to string"⟩] ∧
    (errorMetadata ⟨goString "Can't serialize 42 to string"⟩).Record = none ∧
    (errorMetadata ⟨goString "Can't serialize 42 to string"⟩).Topic = "" ∧
    StringSerializer (.other "int" (goString "42")) =
      .error ⟨goString "Can't serialize 42 to string"⟩ :=
  have h := Send_error_metadata_is_bare (demoProducer (Chan.make 1) true) []
    (demoRecord "orders" (.other "int" (goString "42")) .nil)
    (errorMetadata ⟨goString "Can't serialize 42 to string"⟩) (by decide)
  ⟨by decide, h.1, h.2.1, h.2.2.1, by decide⟩

theorem Send_error_metadata_counterexample :
    (Send (demoProducer (Chan.make 1) true) []
      (demoRecord "orders" (.other "int" (goString "42")) .nil)).delivered =
        [{ Record := none, Offset := 0, Topic := "", Partition := 0,
           Error := some ⟨goString "Can't serialize 42 to string"⟩ }] ∧
    ¬ ∀ md ∈ (Send (demoProducer (Chan.make 1) true) []
        (demoRecord "orders" (.other "int" (goString "42")) .nil)).delivered,
      md.Record = some (Send (demoProducer (Chan.make 1) true) []
        (demoRecord "orders" (.other "int" (goString "42")) .nil)).record ∧
      md.Topic = "orders" := by
  decide

/-- C9. `ByteSerializer` returns a `[]byte` value unchanged and without error, returns the
nil slice and no error for nil, and an error for every other value; `StringSerializer`
returns the bytes of a string, whatever bytes they are, without error, and an error for
every value that is not a string, nil included.  What a call returns is given for every
value, error message included, so the result of a call depends on nothing but the value
and a second call on the same value returns the same.  The values at the end are computed:
a string that is not valid UTF-8, one that holds a two-byte character, and the messages
for a byte slice, for nil and for a string. -/
theorem serializers_accept_their_own_type :
    (∀ array : Bytes, ByteSerializer (.bytes array) = .ok array) ∧
    ByteSerializer .nil = .ok none ∧
    (∀ value : GoValue, value ≠ .nil → (∀ array, value ≠ .bytes array) →
      ByteSerializer value = .error ⟨goString "Can't serialize " ++ formatV value⟩) ∧
    (∀ str : GoString, StringSerializer (.string str) = .ok (some str)) ∧
    (∀ value : GoValue, (∀ str, value ≠ .string str) →
      StringSerializer value =
        .error ⟨goString "Can't serialize " ++ formatV value ++ goString " to string"⟩) ∧
    (∀ (value : GoValue) (result : Except GoError Bytes), ByteSerializer value = result ↔
      (value = .nil ∧ result = .ok none) ∨
      (∃ array, value = .bytes array ∧ result = .ok array) ∨
      (value ≠ .nil ∧ (∀ array, value ≠ .bytes array) ∧
        result = .error ⟨goString "Can't serialize " ++ formatV value⟩)) ∧
    (∀ (value : GoValue) (result : Except GoError Bytes), StringSerializer value = result ↔
      (∃ str, value = .string str ∧ result = .ok (some str)) ∨
      ((∀ str, value ≠ .string str) ∧
        result =
          .error ⟨goString "Can't serialize " ++ formatV value ++ goString " to string"⟩)) ∧
    StringSerializer (.string [255, 254]) = .ok (some [255, 254]) ∧
    StringSerializer (.string (goString "héllo")) = .ok (some [104, 195, 169, 108, 108, 111]) ∧
    ByteSerializer (.bytes (some [1, 2, 3])) = .ok (some [1, 2, 3]) ∧
    StringSerializer (.bytes (some [1, 2, 3])) =
      .error ⟨[67, 97, 110, 39, 116, 32, 115, 101, 114, 105, 97, 108, 105, 122, 101, 32, 91, 49,
        32, 50, 32, 51, 93, 32, 116, 111, 32, 115, 116, 114, 105, 110, 103]⟩ ∧
    StringSerializer .nil =
      .error ⟨[67, 97, 110, 39, 116, 32, 115, 101, 114, 105, 97, 108, 105, 122, 101, 32, 60,
        110, 105, 108, 62, 32, 116, 111, 32, 115, 116, 114, 105, 110, 103]⟩ ∧
    ByteSerializer (.string [97, 98, 99]) =
      .error ⟨[67, 97, 110, 39, 116, 32, 115, 101, 114, 105, 97, 108, 105, 122, 101, 32, 97,
        98, 99]⟩ := by
  have hb : ∀ value : GoValue, value ≠ .nil → (∀ array, value ≠ .bytes array) →
      ByteSerializer value = .error ⟨goString "Can't serialize " ++ formatV value⟩ := by
    intro value hnil hbytes
    cases value with
    | nil => exact absurd rfl hnil
    | bytes array => exact absurd rfl (hbytes array)
    | string str => rfl
    | other typeName text => rfl
  have hs : ∀ value : GoValue, (∀ str, value ≠ .string str) →
      StringSerializer value =
        .error ⟨goString "Can't serialize " ++ formatV value ++ goString " to string"⟩ := by
    intro value hstr
    cases value with
    | nil => rfl
    | bytes array => rfl
    | string str => exact absurd rfl (hstr str)
    | other typeName text => rfl
  refine ⟨fun _ => rfl, rfl, hb, fun _ => rfl, hs, ?_, ?_, by decide, by decide, by decide,
    by decide, by decide, by decide⟩
  · intro value result
    constructor
    · intro h
      subst h
      cases value with
      | nil => exact Or.inl ⟨rfl, rfl⟩
      | bytes array => exact Or.inr (Or.inl ⟨array, rfl, rfl⟩)
      | string str =>
        exact Or.inr (Or.inr ⟨fun h => (by cases h), fun _ h => (by cases h), rfl⟩)
      | other typeName text =>
        exact Or.inr (Or.inr ⟨fun h => (by cases h), fun _ h => (by cases h), rfl⟩)
    · rintro (⟨hv, hr⟩ | ⟨array, hv, hr⟩ | ⟨hnil, hbytes, hr⟩)
      · subst hv; subst hr; rfl
      · subst hv; subst hr; rfl
      · rw [hr]; exact hb value hnil hbytes
  · intro value result
    constructor
    · intro h
      subst h
      cases value with
      | nil => exact Or.inr ⟨fun _ h => (by cases h), rfl⟩
      | bytes array => exact Or.inr ⟨fun _ h => (by cases h), rfl⟩
      | string str => exact Or.inl ⟨str, rfl, rfl⟩
      | other typeName text => exact Or.inr ⟨fun _ h => (by cases h), rfl⟩
    · rintro (⟨str, hv, hr⟩ | ⟨hstr, hr⟩)
      · subst hv; subst hr; rfl
      · rw [hr]; exact hs value hstr

/-- C10. With `bootstrap.servers` absent and `metadata.broker.list` naming two brokers, the
loaded broker list is the one-element list holding the empty string, not the two brokers:
`strings.Split` of the empty string has length one, so the fallback test
`len(BrokerList) == 0` does not hold. -/
theorem brokerList_fallback_skipped {π : Type} (ParseDuration : String → Except GoError Int)
    (Atoi : String → Except GoError Int) (hashPartitioner : Partitioner π) :
    brokerListOf (ProducerConfigFromFile
      (fun _ => .ok [("metadata.broker.list", "host1:9092,host2:9092")])
      ParseDuration Atoi hashPartitioner "producer.properties") = some [""] ∧
    stringsSplit "host1:9092,host2:9092" = ["host1:9092", "host2:9092"] ∧
    stringsSplit (optionOf [("metadata.broker.list", "host1:9092,host2:9092")]
      "bootstrap.servers") = [""] := by
  refine ⟨rfl, ?_, ?_⟩
  · decide
  · decide

end Producer
